import Mathlib

set_option maxRecDepth 100000

/-
Verification development for the realtime-ten-vad streaming voice-activity
segmenter (src/index.js, class RealtimeTenVad).

Shallow embedding conventions:
- audio samples and probabilities are rationals (the JS code uses IEEE doubles;
  the claims under study are about control flow and integer frame counts, not
  float rounding);
- the WASM classifier call (_ten_vad_process) is an external collaborator and
  is modelled as a state-threaded function from the quantized int16 frame to an
  optional (probability, flag) result, where a result of none models a nonzero
  return code rc (the error path of _processFrame);
- the energy gate of _processFrame compares 20*log10(rms + 1e-12) with the
  configured dBFS threshold; since x ↦ 20*log10(x + 1e-12) is strictly
  monotone, the comparison is represented equivalently as a threshold on the
  mean square of the raw frame (field energyGateMs2 below); none disables the
  gate, exactly like the null energyGateDb of the source;
- the three callbacks are modelled as an append-only event log in the machine
  state: this is the externally observable behaviour (a misbehaving callback is
  caught by the source and cannot affect the state machine).
-/

namespace RealtimeTenVad

/-- JS Math.round: half-up rounding (ties toward positive infinity). -/
def jsRound (q : ℚ) : ℤ := ⌊q + 1/2⌋

/-- JS ToInt32-style truncation toward zero, as produced by the (x | 0) idiom. -/
def jsTrunc (q : ℚ) : ℤ := if 0 ≤ q then ⌊q⌋ else -⌊-q⌋

/-- Clamp a number to the interval between 0 and 1, as Math.min(1, Math.max(0, x)). -/
def clamp01 (q : ℚ) : ℚ := min 1 (max 0 q)

/-- Clamp a sample to the interval between -1 and 1, as Math.max(-1, Math.min(1, x)). -/
def clampSample (x : ℚ) : ℚ := max (-1) (min 1 x)

/-- Wrap an integer into the Int16 range, as storing into an Int16Array does. -/
def wrap16 (z : ℤ) : ℤ := (z + 32768) % 65536 - 32768

/-- HOP_SIZE of src/index.js: 256 samples per frame (16 ms at 16 kHz). -/
def HOP_SIZE : ℕ := 256

/-- SAMPLE_RATE of src/index.js: 16000 Hz. -/
def SAMPLE_RATE : ℕ := 16000

/-- One audio sample (the JS code uses Float32 in the range -1..1). -/
abbrev Sample := ℚ

/-- One fixed-length frame of samples (length HOP_SIZE in every real run). -/
abbrev Frame := List Sample

/-- Result of one successful classifier call: probability and 0/1 voice flag. -/
structure ClassResult where
  prob : ℚ
  flag : Bool
deriving DecidableEq

/-- The external classifier (the _ten_vad_process WASM call): given its
internal state and the quantized int16 frame, it returns its next state and
either some result or none (modelling a nonzero return code). -/
def Classifier (σ : Type) : Type := σ → List ℤ → σ × Option ClassResult

/-- The observable callback invocations: onSpeechStart, onSpeechEnd(segment),
onVADMisfire. -/
inductive Event where
  | speechStart : Event
  | speechEnd : List Sample → Event
  | misfire : Event
deriving DecidableEq

/-- A small signature of an event used to state concrete run results without
spelling out full segment payloads: constructor tag plus payload length. -/
def Event.sig : Event → ℕ × ℕ
  | Event.speechStart => (0, 0)
  | Event.misfire => (1, 0)
  | Event.speechEnd s => (2, s.length)

/-- The tunables fixed by the RealtimeTenVad constructor (lines 38-56 and
75-79 of src/index.js), after clamping/ordering/rounding. -/
structure Config where
  positiveSpeechThreshold : ℚ
  negativeSpeechThreshold : ℚ
  minSpeechFrames : ℚ
  minSilenceFrames : ℚ
  probSmoothing : ℚ
  energyGateMs2 : Option ℚ
  preEmphasis : ℚ
  prePadFrames : ℤ
  postPadFrames : ℤ
  minSpeechMs : ℚ
deriving DecidableEq

/-- Ring capacity: this._ringMax = Math.max(0, this._prePadFrames). -/
def Config.ringMax (c : Config) : ℕ := c.prePadFrames.toNat

/-- The constructor of RealtimeTenVad: clamp both thresholds to 0..1, swap
them if given inverted, clamp probSmoothing to 0..1, and convert the pad
durations in milliseconds to frame counts with Math.round(ms/1000*16000/256). -/
def mkConfig (pos neg msf msil sm : ℚ) (gate : Option ℚ)
    (preEmph preMs postMs minMs : ℚ) : Config :=
  let p := clamp01 pos
  let n := clamp01 neg
  { positiveSpeechThreshold := if n > p then n else p
    negativeSpeechThreshold := if n > p then p else n
    minSpeechFrames := msf
    minSilenceFrames := msil
    probSmoothing := clamp01 sm
    energyGateMs2 := gate
    preEmphasis := preEmph
    prePadFrames := jsRound (preMs / 1000 * 16000 / 256)
    postPadFrames := jsRound (postMs / 1000 * 16000 / 256)
    minSpeechMs := minMs }

/-- The per-frame mutable state of RealtimeTenVad (constructor lines 62-87),
except the inter-chunk sample buffer this._floatBuf which lives in VadState.
The field events is the log of emitted callbacks. -/
structure Machine (σ : Type) where
  cstate : σ
  lastSampleForPreEmph : Sample
  pSmoothed : ℚ
  frameIndex : ℕ
  inSpeech : Bool
  voiceRun : ℕ
  silenceRun : ℕ
  ring : List Frame
  currentSegment : List Frame
  postPadCountdown : ℤ
  events : List Event
deriving DecidableEq

/-- Initial machine state: everything zero / empty / false. -/
def initMachine (cs : σ) : Machine σ :=
  { cstate := cs
    lastSampleForPreEmph := 0
    pSmoothed := 0
    frameIndex := 0
    inSpeech := false
    voiceRun := 0
    silenceRun := 0
    ring := []
    currentSegment := []
    postPadCountdown := 0
    events := [] }

/-- Full stream state: machine plus the buffered tail of pushed samples that
does not yet fill a frame (this._floatBuf). -/
structure VadState (σ : Type) where
  m : Machine σ
  floatBuf : List Sample
deriving DecidableEq

/-- Initial stream state. -/
def initVad (cs : σ) : VadState σ := ⟨initMachine cs, []⟩

/-- Quantization of one (possibly filtered) sample for the classifier:
Int16Array slot receives (clamp(-1,1,s) * 32768) | 0. -/
def toInt16 (x : ℚ) : ℤ := wrap16 (jsTrunc (clampSample x * 32768))

/-- Lines 203-222 of _processFrame: build the int16 frame for the classifier,
applying the pre-emphasis filter y = x - a*prev when the coefficient is
positive, and return it together with the raw previous-sample carry
(this._lastSampleForPreEmph), which in both branches ends as the last raw
sample of the frame. -/
def preEmphFrame (a : ℚ) (prev0 : Sample) (f : Frame) : List ℤ × Sample :=
  if a > 0 then
    f.foldl (fun acc x => (acc.1 ++ [toInt16 (x - a * acc.2)], x)) ([], prev0)
  else
    (f.map toInt16, f.getLastD prev0)

/-- Mean square of the raw samples of a frame (rms squared); the energy gate
of lines 241-248 compares the dBFS of (rms + 1e-12) against energyGateDb,
which is equivalent to comparing this mean square against a fixed threshold. -/
def meanSquare (f : Frame) : ℚ := (f.map fun x => x * x).sum / (HOP_SIZE : ℚ)

/-- Ring-buffer maintenance at the top of _advanceState (lines 258-261):
if the ring capacity is positive, evict the oldest frame when full and push
the current raw frame. -/
def ringPush (cfg : Config) (ring : List Frame) (f : Frame) : List Frame :=
  if 0 < cfg.ringMax then
    (if cfg.ringMax ≤ ring.length then ring.drop 1 else ring) ++ [f]
  else ring

/-- The segment finalization block shared by lines 297-308 of _advanceState
and lines 323-332 of _finalizeWithFrame: concatenate the accumulated frames,
compute the duration Math.round(length/16000*1000) in milliseconds, and pick
onVADMisfire below minSpeechMs, otherwise onSpeechEnd with the audio. -/
def segFinalize (cfg : Config) (segFrames : List Frame) : Event :=
  let audio := segFrames.flatten
  let durMs := jsRound ((audio.length : ℚ) / (SAMPLE_RATE : ℚ) * 1000)
  if (durMs : ℚ) < cfg.minSpeechMs then Event.misfire else Event.speechEnd audio

/-- The voice branch of _advanceState (lines 263-280): bump voiceRun, clear
silenceRun; on crossing minSpeechFrames outside speech, enter speech, seed the
segment with the ring content (which at this point already contains the
current frame), zero the post-pad countdown and emit onSpeechStart; finally,
while in speech, append the current raw frame to the segment. -/
def advanceVoiceStep (cfg : Config) (m : Machine σ) (f : Frame) : Machine σ :=
  let m1 := { m with voiceRun := m.voiceRun + 1, silenceRun := 0 }
  let m2 :=
    if m1.inSpeech = false ∧ (m1.voiceRun : ℚ) ≥ cfg.minSpeechFrames then
      { m1 with inSpeech := true
                currentSegment :=
                  m1.currentSegment ++ (if 0 < cfg.ringMax then m1.ring else [])
                postPadCountdown := 0
                events := m1.events ++ [Event.speechStart] }
    else m1
  if m2.inSpeech then { m2 with currentSegment := m2.currentSegment ++ [f] } else m2

/-- The silence branch of _advanceState (lines 282-311): bump silenceRun,
clear voiceRun; while in speech, arm the post-pad countdown on the first
silent frame, append the frame to the segment, decrement the countdown, and
finalize once silenceRun reaches minSilenceFrames with the countdown
exhausted. -/
def advanceSilenceStep (cfg : Config) (m : Machine σ) (f : Frame) : Machine σ :=
  let m1 := { m with silenceRun := m.silenceRun + 1, voiceRun := 0 }
  if m1.inSpeech then
    let cd0 := if m1.postPadCountdown = 0 then cfg.postPadFrames else m1.postPadCountdown
    let seg := m1.currentSegment ++ [f]
    let cd := cd0 - 1
    if (m1.silenceRun : ℚ) ≥ cfg.minSilenceFrames ∧ cd ≤ 0 then
      { m1 with inSpeech := false
                currentSegment := []
                postPadCountdown := 0
                events := m1.events ++ [segFinalize cfg seg] }
    else
      { m1 with currentSegment := seg, postPadCountdown := cd }
  else m1

/-- _advanceState (lines 256-314): push the raw frame into the pre-pad ring,
take the voice or silence branch, and advance the frame index. -/
def advanceState (cfg : Config) (m : Machine σ) (isVoice : Bool) (f : Frame) :
    Machine σ :=
  let m' := { m with ring := ringPush cfg m.ring f }
  let m'' := if isVoice then advanceVoiceStep cfg m' f else advanceSilenceStep cfg m' f
  { m'' with frameIndex := m''.frameIndex + 1 }

/-- _processFrame (lines 202-254): quantize (with optional pre-emphasis),
update the raw-sample carry, call the classifier; on error advance as a
non-voice frame without touching the smoothed probability; on success update
the EMA-smoothed probability, evaluate the energy gate on the raw frame,
apply the hysteresis threshold and advance the state machine. -/
def processFrame (C : Classifier σ) (cfg : Config) (m : Machine σ) (frameRaw : Frame) :
    Machine σ :=
  let ip := preEmphFrame cfg.preEmphasis m.lastSampleForPreEmph frameRaw
  let cr := C m.cstate ip.1
  let m1 := { m with lastSampleForPreEmph := ip.2, cstate := cr.1 }
  match cr.2 with
  | none => advanceState cfg m1 false frameRaw
  | some r =>
    let alpha := cfg.probSmoothing
    let pS := alpha * m1.pSmoothed + (1 - alpha) * r.prob
    let m2 := { m1 with pSmoothed := pS }
    let gated :=
      match cfg.energyGateMs2 with
      | none => true
      | some t => decide (meanSquare frameRaw ≥ t)
    let hyst := if m2.inSpeech then cfg.negativeSpeechThreshold
                else cfg.positiveSpeechThreshold
    let isVoice := r.flag && decide (pS ≥ hyst) && gated
    advanceState cfg m2 isVoice frameRaw

/-- Fold processFrame over a list of prepared frames. -/
def runFrames (C : Classifier σ) (cfg : Config) (m : Machine σ)
    (frames : List Frame) : Machine σ :=
  frames.foldl (processFrame C cfg) m

/-- Fuel-indexed version of the framing loop of processAudio (lines 104-114):
repeatedly split off HOP_SIZE samples and process them, returning the machine
and the undersized remainder. Each iteration strictly shortens the buffer, so
fuel equal to the buffer length always suffices (theorem drainFrames_eq
recovers the while-loop unfolding). -/
def drainFramesAux (C : Classifier σ) (cfg : Config) :
    ℕ → Machine σ → List Sample → Machine σ × List Sample
  | 0, m, buf => (m, buf)
  | fuel + 1, m, buf =>
    if HOP_SIZE ≤ buf.length then
      drainFramesAux C cfg fuel (processFrame C cfg m (buf.take HOP_SIZE)) (buf.drop HOP_SIZE)
    else (m, buf)

/-- The framing loop of processAudio, with the fuel instantiated. -/
def drainFrames (C : Classifier σ) (cfg : Config) (m : Machine σ)
    (buf : List Sample) : Machine σ × List Sample :=
  drainFramesAux C cfg buf.length m buf

/-- processAudio (lines 93-115): concatenate the buffered remainder with the
new chunk, frame off in HOP_SIZE hops, keep the remainder. -/
def processAudio (C : Classifier σ) (cfg : Config) (s : VadState σ)
    (chunk : List Sample) : VadState σ :=
  let r := drainFrames C cfg s.m (s.floatBuf ++ chunk)
  ⟨r.1, r.2⟩

/-- Frame of HOP_SIZE zero samples, as synthesized by flush. -/
def silentFrame : Frame := List.replicate HOP_SIZE 0

/-- _finalizeWithFrame (lines 316-335): push the trailing frame into the
segment and, when treated as silence, run the countdown-arm / decrement /
finalize logic of the silence path without the silence-run condition. -/
def finalizeWithFrame (cfg : Config) (m : Machine σ) (trailing : Frame)
    (treatAsSilence : Bool) : Machine σ :=
  let m1 := { m with currentSegment := m.currentSegment ++ [trailing] }
  if treatAsSilence then
    let cd0 := if m1.postPadCountdown = 0 then cfg.postPadFrames else m1.postPadCountdown
    let cd := cd0 - 1
    if cd ≤ 0 then
      { m1 with inSpeech := false
                currentSegment := []
                postPadCountdown := 0
                events := m1.events ++ [segFinalize cfg m1.currentSegment] }
    else
      { m1 with postPadCountdown := cd }
  else m1

/-- Fuel-indexed version of the while loop of flush (lines 128-132): while the
post-pad countdown is positive, feed a silent frame through _finalizeWithFrame.
Each iteration strictly lowers the countdown, so fuel equal to the countdown
always suffices (theorem flushLoop_eq recovers the while-loop unfolding). -/
def flushLoopAux (cfg : Config) : ℕ → Machine σ → Machine σ
  | 0, m => m
  | fuel + 1, m =>
    if 0 < m.postPadCountdown then
      flushLoopAux cfg fuel (finalizeWithFrame cfg m silentFrame true)
    else m

/-- The while loop of flush, with the fuel instantiated. -/
def flushLoop (cfg : Config) (m : Machine σ) : Machine σ :=
  flushLoopAux cfg m.postPadCountdown.toNat m

/-- Zero-pad a partial frame to HOP_SIZE samples, as new Float32Array(HOP_SIZE)
overwritten from index 0 with the remainder. -/
def padFrame (buf : List Sample) : List Sample :=
  buf ++ List.replicate (HOP_SIZE - buf.length) 0

/-- flush (lines 117-134): if samples are buffered, zero-pad them to one frame
and run it through processAudio (note: processAudio prepends this._floatBuf,
which still holds the remainder, exactly as the source does), then clear the
buffer; if still in speech, set the countdown to the full post padding and
drain it with silent frames. -/
def flush (C : Classifier σ) (cfg : Config) (s : VadState σ) : VadState σ :=
  let s1 :=
    if 0 < s.floatBuf.length then
      { m := (processAudio C cfg s (padFrame s.floatBuf)).m,
        floatBuf := ([] : List Sample) }
    else s
  if s1.m.inSpeech then
    { s1 with m := flushLoop cfg { s1.m with postPadCountdown := cfg.postPadFrames } }
  else s1

/-- Classifier that replays a fixed script of results, ignoring the audio
content; an exhausted script behaves like the error path. This is the
deterministic test double the design notes call for. -/
def scripted : Classifier (List (Option ClassResult)) :=
  fun s _ => (s.drop 1, s.headD none)

/-- Classifier returning the same result on every frame. -/
def constOracle (r : Option ClassResult) : Classifier Unit :=
  fun _ _ => ((), r)

/-- The default configuration of the constructor: thresholds 0.6/0.4,
minSpeechFrames 3, minSilenceFrames 8, probSmoothing 0.2, gate disabled,
no pre-emphasis, pads 80/160 ms, minSpeechMs 150. -/
def defaultConfig : Config := mkConfig 0.6 0.4 3 8 0.2 none 0 80 160 150

/-- A frame of HOP_SIZE zero samples used as concrete audio input. -/
def zeroFrame : Frame := List.replicate HOP_SIZE 0

/-- Classifier script for the reference scenario of the spec: 23 frames that
classify as voice (probability 1, flag 1) followed by continuous silence
(probability 0, flag 0). -/
def c1Script : List (Option ClassResult) :=
  List.replicate 23 (some ⟨1, true⟩) ++ List.replicate 12 (some ⟨0, false⟩)

/-- 35 frames of input audio for the reference scenario. -/
def c1Frames : List Frame := List.replicate 35 zeroFrame

/-- Configuration that maps postSpeechPadMs to 0 post-pad frames, with
minSpeechFrames 1 and smoothing disabled so one voice frame opens a segment. -/
def cfg2 : Config := mkConfig 0.6 0.4 1 8 0 none 0 0 0 150

/-- A stream state that is in Speech with an open segment: one frame of audio
classified as voice under cfg2. -/
def c2State : VadState Unit :=
  processAudio (constOracle (some ⟨1, true⟩)) cfg2 (initVad ()) (List.replicate HOP_SIZE 0)

/-- A machine state with a nonzero smoothed probability, used to compare the
classifier-error path against a successful zero-probability classification. -/
def c3Machine : Machine Unit := { initMachine () with pSmoothed := 1 }

/-- Default configuration except probSmoothing 0 (no EMA): this satisfies all
parameters the reference scenario pins (minSpeechFrames 3, minSilenceFrames 8,
pads 80/160 ms, minSpeechMs 150) and makes the smoothed probability equal the
raw one. Used for the C1 scenario run and the amended C4 claim. -/
def zeroSmoothingConfig : Config := mkConfig 0.6 0.4 3 8 0 none 0 80 160 150

/-- An in-speech machine state meeting both finalization conditions
(silenceRun about to reach minSilenceFrames, countdown about to expire). -/
def c8Machine : Machine Unit :=
  { initMachine () with inSpeech := true, silenceRun := 9, postPadCountdown := 1,
                        currentSegment := [zeroFrame] }

/-- Configuration for a minimal two-frame segment: minSpeechFrames 1,
minSilenceFrames 1, one post-pad frame (16 ms), minSpeechMs 0, smoothing 0. -/
def cfg10 : Config := mkConfig 0.6 0.4 1 1 0 none 0 0 16 0

/-- Script for the two-frame segment run: one voice frame, one silent frame. -/
def c10Script : List (Option ClassResult) := [some ⟨1, true⟩, some ⟨0, false⟩]

/-- Fuel-indexed frame cutter: the HOP_SIZE windows the framing loop of
processAudio strips off a buffer, in order. -/
def framesOfAux : ℕ → List Sample → List Frame
  | 0, _ => []
  | fuel + 1, buf =>
    if HOP_SIZE ≤ buf.length then
      buf.take HOP_SIZE :: framesOfAux fuel (buf.drop HOP_SIZE)
    else []

/-- The frames the framing loop cuts from a buffer. -/
def framesOf (buf : List Sample) : List Frame := framesOfAux buf.length buf

/-- Fuel-indexed leftover: the undersized remainder the framing loop keeps. -/
def leftoverOfAux : ℕ → List Sample → List Sample
  | 0, buf => buf
  | fuel + 1, buf =>
    if HOP_SIZE ≤ buf.length then leftoverOfAux fuel (buf.drop HOP_SIZE) else buf

/-- The remainder the framing loop leaves in the buffer. -/
def leftoverOf (buf : List Sample) : List Sample := leftoverOfAux buf.length buf

/-- The single extra frame flush feeds through the state machine when an
undersized remainder is buffered: processAudio prepends the still-held
remainder to the zero-padded remainder and cuts one hop off it. -/
def flushFedExt (buf : List Sample) : List Frame :=
  if buf = [] then [] else [(buf ++ padFrame buf).take HOP_SIZE]

/-- The complete list of frames a push-then-flush pipeline feeds through
_processFrame for a given concatenated sample stream: the HOP_SIZE windows of
the stream, in order, plus the flush remainder frame if any. -/
def pipeFed (stream : List Sample) : List Frame :=
  framesOf stream ++ flushFedExt (leftoverOf stream)

/-- Ordered decomposition of an emitted payload: the audio is the
concatenation, in order, of two contiguous runs of fed frames (the pre-pad
ring seed, then the run from the trigger frame to the close, which re-covers
the trigger frame) followed by the silent frames flush appends while draining
the post padding. -/
def PayloadOrd (fed : List Frame) (seg : List Sample) : Prop :=
  ∃ w₁ w₂ k, seg = (w₁ ++ w₂ ++ List.replicate k silentFrame).flatten
    ∧ w₁ <:+: fed ∧ w₂ <:+: fed

/-- Ordered-content invariant for C9, relative to the list of frames fed so
far: the pre-pad ring is a contiguous suffix of the fed frames (and empty when
disabled); outside speech the segment is empty; inside speech the segment is a
contiguous run of fed frames followed by a contiguous run that reaches the end
of the fed frames; and every emitted payload satisfies PayloadOrd. -/
def SegOrd (cfg : Config) (fed : List Frame) (m : Machine σ) : Prop :=
  (m.ring <:+ fed ∧ (¬ 0 < cfg.ringMax → m.ring = []))
    ∧ (m.inSpeech = false → m.currentSegment = [])
    ∧ (m.inSpeech = true →
        ∃ w₁ w₂, m.currentSegment = w₁ ++ w₂ ∧ w₁ <:+: fed ∧ w₂ <:+ fed)
    ∧ (∀ seg, Event.speechEnd seg ∈ m.events → PayloadOrd fed seg)

/-- Length invariant for C10: every frame held in the ring or the open
segment has exactly HOP_SIZE samples, and every emitted onSpeechEnd payload
has a positive multiple of HOP_SIZE samples. -/
def FrameLenInv (m : Machine σ) : Prop :=
  (∀ g ∈ m.ring, g.length = HOP_SIZE) ∧ (∀ g ∈ m.currentSegment, g.length = HOP_SIZE) ∧
    (∀ seg, Event.speechEnd seg ∈ m.events →
      ∃ k : ℕ, 0 < k ∧ seg.length = HOP_SIZE * k)

/-- C5: for every pair of numeric threshold inputs, including inverted pairs,
the constructed configuration satisfies negativeSpeechThreshold less than or
equal to positiveSpeechThreshold; the configuration is immutable state in
this model, so the ordering holds for the lifetime of the instance. -/
theorem c5_thresholds_ordered (pos neg msf msil sm : ℚ) (gate : Option ℚ)
    (preEmph preMs postMs minMs : ℚ) :
    (mkConfig pos neg msf msil sm gate preEmph preMs postMs minMs).negativeSpeechThreshold ≤
      (mkConfig pos neg msf msil sm gate preEmph preMs postMs minMs).positiveSpeechThreshold := by
  unfold mkConfig
  dsimp only
  split_ifs with h
  · exact le_of_lt h
  · exact le_of_not_lt h

/-- Field values of zeroSmoothingConfig, used as rewrite rules when running
the reference scenario symbolically. -/
theorem zsc_pos : zeroSmoothingConfig.positiveSpeechThreshold = 3/5 := by
  norm_num [zeroSmoothingConfig, mkConfig, clamp01]

/-- Negative threshold of zeroSmoothingConfig. -/
theorem zsc_neg : zeroSmoothingConfig.negativeSpeechThreshold = 2/5 := by
  norm_num [zeroSmoothingConfig, mkConfig, clamp01]

/-- minSpeechFrames of zeroSmoothingConfig. -/
theorem zsc_msf : zeroSmoothingConfig.minSpeechFrames = 3 := by
  norm_num [zeroSmoothingConfig, mkConfig]

/-- minSilenceFrames of zeroSmoothingConfig. -/
theorem zsc_msil : zeroSmoothingConfig.minSilenceFrames = 8 := by
  norm_num [zeroSmoothingConfig, mkConfig]

/-- probSmoothing of zeroSmoothingConfig. -/
theorem zsc_sm : zeroSmoothingConfig.probSmoothing = 0 := by
  norm_num [zeroSmoothingConfig, mkConfig, clamp01]

/-- Energy gate of zeroSmoothingConfig is disabled. -/
theorem zsc_gate : zeroSmoothingConfig.energyGateMs2 = none := by
  norm_num [zeroSmoothingConfig, mkConfig]

/-- Post-pad frame count of zeroSmoothingConfig: 160 ms is 10 frames. -/
theorem zsc_post : zeroSmoothingConfig.postPadFrames = 10 := by
  norm_num [zeroSmoothingConfig, mkConfig, jsRound]

/-- Pre-pad ring capacity of zeroSmoothingConfig: 80 ms is 5 frames. -/
theorem zsc_ringMax : zeroSmoothingConfig.ringMax = 5 := by
  have h : zeroSmoothingConfig.prePadFrames = 5 := by
    norm_num [zeroSmoothingConfig, mkConfig, jsRound]
  simp [Config.ringMax, h]

/-- minSpeechMs of zeroSmoothingConfig. -/
theorem zsc_minMs : zeroSmoothingConfig.minSpeechMs = 150 := by
  norm_num [zeroSmoothingConfig, mkConfig]

/-- The length of the zero frame. -/
theorem zeroFrame_length : zeroFrame.length = 256 := by
  simp [zeroFrame, HOP_SIZE]

/-- The scenario script written out frame by frame. -/
theorem c1Script_expand : c1Script = [some ⟨1, true⟩,
    some ⟨1, true⟩,
    some ⟨1, true⟩,
    some ⟨1, true⟩,
    some ⟨1, true⟩,
    some ⟨1, true⟩,
    some ⟨1, true⟩,
    some ⟨1, true⟩,
    some ⟨1, true⟩,
    some ⟨1, true⟩,
    some ⟨1, true⟩,
    some ⟨1, true⟩,
    some ⟨1, true⟩,
    some ⟨1, true⟩,
    some ⟨1, true⟩,
    some ⟨1, true⟩,
    some ⟨1, true⟩,
    some ⟨1, true⟩,
    some ⟨1, true⟩,
    some ⟨1, true⟩,
    some ⟨1, true⟩,
    some ⟨1, true⟩,
    some ⟨1, true⟩,
    some ⟨0, false⟩,
    some ⟨0, false⟩,
    some ⟨0, false⟩,
    some ⟨0, false⟩,
    some ⟨0, false⟩,
    some ⟨0, false⟩,
    some ⟨0, false⟩,
    some ⟨0, false⟩,
    some ⟨0, false⟩,
    some ⟨0, false⟩,
    some ⟨0, false⟩,
    some ⟨0, false⟩] := by
  rfl

/-- The scenario input frames written out. -/
theorem c1Frames_expand : c1Frames = [zeroFrame,
    zeroFrame,
    zeroFrame,
    zeroFrame,
    zeroFrame,
    zeroFrame,
    zeroFrame,
    zeroFrame,
    zeroFrame,
    zeroFrame,
    zeroFrame,
    zeroFrame,
    zeroFrame,
    zeroFrame,
    zeroFrame,
    zeroFrame,
    zeroFrame,
    zeroFrame,
    zeroFrame,
    zeroFrame,
    zeroFrame,
    zeroFrame,
    zeroFrame,
    zeroFrame,
    zeroFrame,
    zeroFrame,
    zeroFrame,
    zeroFrame,
    zeroFrame,
    zeroFrame,
    zeroFrame,
    zeroFrame,
    zeroFrame,
    zeroFrame,
    zeroFrame] := by
  rfl

/-- Duration in milliseconds of a 34-frame segment: 8704 samples at 16 kHz
rounds to 544 ms. -/
theorem c1_floor : ⌊(8704 : ℚ) / (SAMPLE_RATE : ℚ) * 1000 + 1/2⌋ = (544 : ℤ) := by
  rw [show ((8704 : ℚ) / (SAMPLE_RATE : ℚ) * 1000 + 1/2) = 1089/2 by norm_num [SAMPLE_RATE]]
  rw [Int.floor_eq_iff]
  constructor <;> norm_num

set_option maxHeartbeats 4000000 in
/-- The reference scenario run, evaluated symbolically: one onSpeechStart,
then one onSpeechEnd of 8704 samples (34 frames: the 3-frame ring seed, the
triggering frame again, 20 more voice frames, 10 trailing silence frames). -/
theorem c1_run_events :
    (runFrames scripted zeroSmoothingConfig (initMachine c1Script) c1Frames).events.map Event.sig
      = [(0, 0), (2, 8704)] := by
  norm_num [runFrames, c1Frames_expand, c1Script_expand, List.foldl, processFrame,
    scripted, advanceState, advanceVoiceStep, advanceSilenceStep, ringPush,
    segFinalize, initMachine, jsRound, Event.sig, zeroFrame_length,
    List.length_flatten, c1_floor, zsc_pos, zsc_neg, zsc_msf, zsc_msil, zsc_sm,
    zsc_gate, zsc_post, zsc_ringMax, zsc_minMs]

/-- C1 counterexample: in the reference scenario (minSpeechFrames 3,
minSilenceFrames 8, pre-pad 5 frames, post-pad 10 frames, minSpeechMs 150;
3 frames classifying as voice, then 20 more, then continuous silence) the run
emits exactly one onSpeechStart and one onSpeechEnd, but the segment has 8704
samples (34 frames), not the (3 available pre-pad frames + 20 + 10) * 256 =
8448 the claim states: the triggering frame is accumulated twice. -/
theorem c1_counterexample :
    (runFrames scripted zeroSmoothingConfig (initMachine c1Script) c1Frames).events.map Event.sig
        = [(0, 0), (2, 8704)]
      ∧ 8704 ≠ (3 + 20 + 10) * 256 :=
  ⟨c1_run_events, by norm_num⟩

/-- C1 amended: the reference scenario emits exactly one onSpeechStart then
one onSpeechEnd whose segment length is (available pre-pad frames + 1 + 20
+ 10) * 256 samples: the extra frame is the start-triggering frame, which
enters the segment once through the pre-pad ring seed (the ring already
contains it at seeding time) and once again as the current frame. -/
theorem c1_amended :
    (runFrames scripted zeroSmoothingConfig (initMachine c1Script) c1Frames).events.map Event.sig
      = [(0, 0), (2, (3 + 1 + 20 + 10) * 256)] := by
  rw [c1_run_events]

/-- C2 failing input: with postSpeechPadMs mapping to 0 post-pad frames and
the machine in Speech with an open segment, flush() emits no terminal
callback at all and leaves the machine in Speech: the while loop over the
post-pad countdown never runs, so the open segment is lost, contradicting
the force-close contract. -/
theorem c2_flush_loses_open_segment :
    c2State.m.inSpeech = true
      ∧ (flush (constOracle (some ⟨1, true⟩)) cfg2 c2State).m.inSpeech = true
      ∧ (flush (constOracle (some ⟨1, true⟩)) cfg2 c2State).m.events = c2State.m.events := by
  refine ⟨by with_unfolding_all decide, by with_unfolding_all decide, by with_unfolding_all decide⟩

/-- C3 counterexample: from a machine with smoothed probability 1 under the
default configuration, a classifier error does not produce the same state as
a successful classification with probability 0 and flag false: the error
path skips the EMA update (smoothed probability stays 1) while the success
path decays it to 0.2. -/
theorem c3_counterexample :
    processFrame (constOracle none) defaultConfig c3Machine zeroFrame
      ≠ processFrame (constOracle (some ⟨0, false⟩)) defaultConfig c3Machine zeroFrame := by
  with_unfolding_all decide

/-- C4 counterexample: under the default configuration (probSmoothing 0.2),
a classifier stream at exactly positiveSpeechThreshold with flag 1 and the
gate open for minSpeechFrames = 3 consecutive frames fires no onSpeechStart
at all: the EMA-smoothed probability stays strictly below the threshold. -/
theorem c4_counterexample :
    (runFrames (constOracle (some ⟨0.6, true⟩)) defaultConfig (initMachine ())
        (List.replicate 3 zeroFrame)).events = [] := by
  with_unfolding_all decide

/-- Running the framing loop with more fuel than the buffer length changes
nothing: each iteration consumes HOP_SIZE samples. -/
theorem drainFramesAux_fuel (C : Classifier σ) (cfg : Config) :
    ∀ (f1 f2 : ℕ) (m : Machine σ) (buf : List Sample),
      buf.length ≤ f1 → buf.length ≤ f2 →
      drainFramesAux C cfg f1 m buf = drainFramesAux C cfg f2 m buf := by
  intro f1
  induction f1 with
  | zero =>
    intro f2 m buf h1 h2
    have hb : buf = [] := List.eq_nil_of_length_eq_zero (Nat.le_zero.mp h1)
    subst hb
    cases f2 <;> simp [drainFramesAux, HOP_SIZE]
  | succ g ih =>
    intro f2 m buf h1 h2
    have hh : HOP_SIZE = 256 := rfl
    by_cases hl : HOP_SIZE ≤ buf.length
    · cases f2 with
      | zero => exfalso; omega
      | succ g2 =>
        simp only [drainFramesAux, if_pos hl]
        apply ih
        · simp only [List.length_drop]; omega
        · simp only [List.length_drop]; omega
    · cases f2 with
      | zero =>
        have hb : buf = [] := List.eq_nil_of_length_eq_zero (Nat.le_zero.mp h2)
        subst hb
        simp [drainFramesAux, HOP_SIZE]
      | succ g2 => simp [drainFramesAux, hl]

/-- The while-loop unfolding of the framing loop of processAudio. -/
theorem drainFrames_eq (C : Classifier σ) (cfg : Config) (m : Machine σ)
    (buf : List Sample) :
    drainFrames C cfg m buf =
      if HOP_SIZE ≤ buf.length then
        drainFrames C cfg (processFrame C cfg m (buf.take HOP_SIZE)) (buf.drop HOP_SIZE)
      else (m, buf) := by
  unfold drainFrames
  have hh : HOP_SIZE = 256 := rfl
  by_cases hl : HOP_SIZE ≤ buf.length
  · rw [if_pos hl]
    obtain ⟨g, hg⟩ : ∃ g, buf.length = g + 1 := ⟨buf.length - 1, by omega⟩
    rw [hg]
    simp only [drainFramesAux, if_pos hl]
    apply drainFramesAux_fuel
    · simp only [List.length_drop]; omega
    · exact le_rfl
  · rw [if_neg hl]
    rcases hn : buf.length with _ | g
    · rfl
    · simp [drainFramesAux, hl]

/-- Splitting lemma behind chunk-boundary invariance: draining a buffer and
then continuing with more samples appended to the remainder is the same as
draining the concatenation at once. -/
theorem drainFrames_append (C : Classifier σ) (cfg : Config) :
    ∀ (n : ℕ) (buf : List Sample), buf.length ≤ n → ∀ (m : Machine σ) (b : List Sample),
      drainFrames C cfg (drainFrames C cfg m buf).1 ((drainFrames C cfg m buf).2 ++ b)
        = drainFrames C cfg m (buf ++ b) := by
  intro n
  induction n with
  | zero =>
    intro buf h m b
    have hb : buf = [] := List.eq_nil_of_length_eq_zero (Nat.le_zero.mp h)
    subst hb
    have h0 : drainFrames C cfg m [] = (m, []) := by
      simp [drainFrames, drainFramesAux]
    rw [h0]
  | succ g ih =>
    intro buf h m b
    have hh : HOP_SIZE = 256 := rfl
    by_cases hl : HOP_SIZE ≤ buf.length
    · rw [drainFrames_eq C cfg m buf, if_pos hl]
      rw [drainFrames_eq C cfg m (buf ++ b)]
      have hl2 : HOP_SIZE ≤ (buf ++ b).length := by
        simp only [List.length_append]; omega
      rw [if_pos hl2, List.take_append_of_le_length hl, List.drop_append_of_le_length hl]
      exact ih _ (by simp only [List.length_drop]; omega) _ b
    · rw [drainFrames_eq C cfg m buf, if_neg hl]

/-- C6: chunk-boundary invariance. With the classifier a deterministic
function of the quantized frame and its own threaded state, processing two
chunks in succession is observationally identical (machine state, classifier
state, event log, and buffered remainder) to processing their concatenation
in one processAudio call. -/
theorem c6_chunk_invariance {σ : Type} (C : Classifier σ) (cfg : Config)
    (s : VadState σ) (a b : List Sample) :
    processAudio C cfg (processAudio C cfg s a) b = processAudio C cfg s (a ++ b) := by
  unfold processAudio
  dsimp only
  rw [← List.append_assoc]
  rw [drainFrames_append C cfg (s.floatBuf ++ a).length (s.floatBuf ++ a) le_rfl s.m b]

/-- Feeding one silent frame through _finalizeWithFrame strictly lowers the
post-pad countdown when it is positive. -/
theorem finalizeWithFrame_cd_lt (cfg : Config) (m : Machine σ)
    (h : 0 < m.postPadCountdown) :
    (finalizeWithFrame cfg m silentFrame true).postPadCountdown.toNat
      < m.postPadCountdown.toNat := by
  unfold finalizeWithFrame
  dsimp only
  split_ifs <;> (try dsimp only) <;> simp_all <;> omega

/-- One silent _finalizeWithFrame step from a positive countdown either
finalizes (leaving Silence with a zero countdown) or keeps a positive
countdown. -/
theorem finalizeWithFrame_silent_spec (cfg : Config) (m : Machine σ)
    (h : 0 < m.postPadCountdown) :
    ((finalizeWithFrame cfg m silentFrame true).inSpeech = false ∧
        (finalizeWithFrame cfg m silentFrame true).postPadCountdown = 0) ∨
      0 < (finalizeWithFrame cfg m silentFrame true).postPadCountdown := by
  unfold finalizeWithFrame
  dsimp only
  split_ifs <;> (try dsimp only) <;> simp_all <;> omega

/-- Running the flush loop with more fuel than the countdown changes
nothing. -/
theorem flushLoopAux_fuel (cfg : Config) :
    ∀ (f1 f2 : ℕ) (m : Machine σ), m.postPadCountdown.toNat ≤ f1 →
      m.postPadCountdown.toNat ≤ f2 → flushLoopAux cfg f1 m = flushLoopAux cfg f2 m := by
  intro f1
  induction f1 with
  | zero =>
    intro f2 m h1 h2
    have hc : ¬ 0 < m.postPadCountdown := by omega
    cases f2 <;> simp [flushLoopAux, hc]
  | succ g ih =>
    intro f2 m h1 h2
    by_cases hc : 0 < m.postPadCountdown
    · cases f2 with
      | zero => exfalso; omega
      | succ g2 =>
        simp only [flushLoopAux, if_pos hc]
        apply ih
        · have := finalizeWithFrame_cd_lt cfg m hc; omega
        · have := finalizeWithFrame_cd_lt cfg m hc; omega
    · cases f2 with
      | zero => simp [flushLoopAux, hc]
      | succ g2 => simp [flushLoopAux, hc]

/-- The while-loop unfolding of the flush loop. -/
theorem flushLoop_eq (cfg : Config) (m : Machine σ) :
    flushLoop cfg m =
      if 0 < m.postPadCountdown then
        flushLoop cfg (finalizeWithFrame cfg m silentFrame true)
      else m := by
  unfold flushLoop
  by_cases hc : 0 < m.postPadCountdown
  · rw [if_pos hc]
    obtain ⟨g, hg⟩ : ∃ g, m.postPadCountdown.toNat = g + 1 :=
      ⟨m.postPadCountdown.toNat - 1, by omega⟩
    rw [hg]
    simp only [flushLoopAux, if_pos hc]
    apply flushLoopAux_fuel
    · have := finalizeWithFrame_cd_lt cfg m hc; omega
    · exact le_rfl
  · rw [if_neg hc]
    rcases hn : m.postPadCountdown.toNat with _ | g
    · rfl
    · simp [flushLoopAux, hc]

/-- Entering the flush loop with a positive countdown always ends in Silence
with the countdown cleared: the loop force-closes the open segment. -/
theorem flushLoop_closes (cfg : Config) :
    ∀ (n : ℕ) (m : Machine σ), m.postPadCountdown.toNat ≤ n →
      0 < m.postPadCountdown →
      (flushLoop cfg m).inSpeech = false ∧ (flushLoop cfg m).postPadCountdown = 0 := by
  intro n
  induction n with
  | zero => intro m h1 h2; exfalso; omega
  | succ g ih =>
    intro m h1 h2
    rw [flushLoop_eq, if_pos h2]
    rcases finalizeWithFrame_silent_spec cfg m h2 with ⟨hs, hcd⟩ | hpos
    · rw [flushLoop_eq, if_neg (by rw [hcd]; omega)]
      exact ⟨hs, hcd⟩
    · exact ih _ (by have := finalizeWithFrame_cd_lt cfg m h2; omega) hpos

/-- flush always leaves the inter-chunk sample buffer empty. -/
theorem flush_floatBuf (C : Classifier σ) (cfg : Config) (s : VadState σ) :
    (flush C cfg s).floatBuf = [] := by
  unfold flush
  dsimp only
  by_cases h1 : 0 < s.floatBuf.length
  · rw [if_pos h1]
    split <;> rfl
  · rw [if_neg h1]
    have hb : s.floatBuf = [] :=
      List.eq_nil_of_length_eq_zero (by omega)
    split <;> simp [hb]

/-- flush on a state whose buffer is already empty skips the zero-padding
branch. -/
theorem flush_empty_buf (C : Classifier σ) (cfg : Config) (t : VadState σ)
    (ht : t.floatBuf = []) :
    flush C cfg t =
      if t.m.inSpeech = true then
        { t with m := flushLoop cfg { t.m with postPadCountdown := cfg.postPadFrames } }
      else t := by
  unfold flush
  rw [ht]
  simp
  rw [ht]

/-- After a flush, the machine is either in Silence, or it is still in Speech
with the countdown parked at a nonpositive postPadFrames (the lost-segment
case). -/
theorem flush_post (C : Classifier σ) (cfg : Config) (s : VadState σ) :
    (flush C cfg s).m.inSpeech = false ∨
      ((flush C cfg s).m.postPadCountdown = cfg.postPadFrames ∧
        cfg.postPadFrames ≤ 0 ∧ (flush C cfg s).m.inSpeech = true) := by
  unfold flush
  dsimp only
  by_cases h2 :
      (if 0 < s.floatBuf.length then
          ({ m := (processAudio C cfg s (padFrame s.floatBuf)).m,
             floatBuf := ([] : List Sample) } : VadState σ)
        else s).m.inSpeech = true
  · rw [if_pos h2]
    dsimp only
    by_cases hp : 0 < cfg.postPadFrames
    · left
      exact (flushLoop_closes cfg cfg.postPadFrames.toNat _ (by dsimp only; omega)
        (by dsimp only; omega)).1
    · right
      rw [flushLoop_eq, if_neg (by dsimp only; omega)]
      exact ⟨rfl, by omega, h2⟩
  · rw [if_neg h2]
    left
    cases hb :
        (if 0 < s.floatBuf.length then
            ({ m := (processAudio C cfg s (padFrame s.floatBuf)).m,
               floatBuf := ([] : List Sample) } : VadState σ)
          else s).m.inSpeech with
    | false => rfl
    | true => exact absurd hb h2

/-- Replacing the countdown field by its own value is the identity. -/
theorem machineSetCd_self {σ : Type} (x : Machine σ) (v : ℤ)
    (h : x.postPadCountdown = v) : ({ x with postPadCountdown := v }) = x := by
  cases x
  dsimp only at h
  subst h
  rfl

/-- C7: flush is idempotent. From any state whose buffered remainder is
shorter than one frame (an invariant of every reachable state), a second
flush with no intervening processAudio emits no callbacks and leaves the
state (machine, event log and buffer) unchanged. -/
theorem c7_flush_idempotent {σ : Type} (C : Classifier σ) (cfg : Config)
    (s : VadState σ) (h : s.floatBuf.length < HOP_SIZE) :
    flush C cfg (flush C cfg s) = flush C cfg s := by
  rw [flush_empty_buf C cfg (flush C cfg s) (flush_floatBuf C cfg s)]
  rcases flush_post C cfg s with hf | ⟨hcd, hle, hsp⟩
  · rw [if_neg (by rw [hf]; simp)]
  · rw [if_pos hsp]
    rw [machineSetCd_self _ _ hcd]
    rw [flushLoop_eq, if_neg (by rw [hcd]; omega)]

/-- C7 witness: concrete instance of flush idempotence at the initial state
under the default configuration. -/
theorem c7_witness :
    (initVad () : VadState Unit).floatBuf.length < HOP_SIZE ∧
      flush (constOracle none) defaultConfig
          (flush (constOracle none) defaultConfig (initVad ()))
        = flush (constOracle none) defaultConfig (initVad ()) :=
  ⟨by with_unfolding_all decide,
    c7_flush_idempotent (constOracle none) defaultConfig (initVad ())
      (by with_unfolding_all decide)⟩

theorem advanceState_pS_irrel (cfg : Config) (m : Machine σ) (v : ℚ) (b : Bool) (f : Frame) :
    advanceState cfg { m with pSmoothed := v } b f
      = { advanceState cfg m b f with pSmoothed := v } := by
  cases m
  dsimp only [advanceState, advanceVoiceStep, advanceSilenceStep, ringPush]
  split_ifs <;> rfl

theorem advanceState_pS (cfg : Config) (m : Machine σ) (b : Bool) (f : Frame) :
    (advanceState cfg m b f).pSmoothed = m.pSmoothed := by
  cases m
  dsimp only [advanceState, advanceVoiceStep, advanceSilenceStep, ringPush]
  split_ifs <;> rfl

theorem advanceState_frameIndex (cfg : Config) (m : Machine σ) (b : Bool) (f : Frame) :
    (advanceState cfg m b f).frameIndex = m.frameIndex + 1 := by
  cases m
  dsimp only [advanceState, advanceVoiceStep, advanceSilenceStep, ringPush]
  split_ifs <;> rfl

theorem processFrame_frameIndex (C : Classifier σ) (cfg : Config) (m : Machine σ)
    (f : Frame) :
    (processFrame C cfg m f).frameIndex = m.frameIndex + 1 := by
  unfold processFrame
  dsimp only
  rcases (C m.cstate (preEmphFrame cfg.preEmphasis m.lastSampleForPreEmph f).1).2 with _ | r
  · dsimp only
    rw [advanceState_frameIndex]
  · dsimp only
    rw [advanceState_frameIndex]

theorem advanceState_congr_pS (cfg : Config) (m1 m2 : Machine σ) (b : Bool) (f : Frame)
    (hc : m1.cstate = m2.cstate) (hl : m1.lastSampleForPreEmph = m2.lastSampleForPreEmph)
    (hf : m1.frameIndex = m2.frameIndex) (hs : m1.inSpeech = m2.inSpeech)
    (hv : m1.voiceRun = m2.voiceRun) (hr : m1.silenceRun = m2.silenceRun)
    (hg : m1.ring = m2.ring) (hcs : m1.currentSegment = m2.currentSegment)
    (hcd : m1.postPadCountdown = m2.postPadCountdown) (he : m1.events = m2.events) :
    advanceState cfg m1 b f = { advanceState cfg m2 b f with pSmoothed := m1.pSmoothed } := by
  cases m1
  cases m2
  dsimp only at *
  subst hc hl hf hs hv hr hg hcs hcd he
  dsimp only [advanceState, advanceVoiceStep, advanceSilenceStep]
  split_ifs <;> rfl

theorem c3_amended {σ : Type} (C₁ C₂ : Classifier σ) (cfg : Config) (m : Machine σ)
    (fr : Frame)
    (h₁ : ∀ s inp, (C₁ s inp).2 = none)
    (h₂ : ∀ s inp, (C₂ s inp).2 = some ⟨0, false⟩)
    (h₃ : ∀ s inp, (C₁ s inp).1 = (C₂ s inp).1) :
    processFrame C₁ cfg m fr = { processFrame C₂ cfg m fr with pSmoothed := m.pSmoothed }
      ∧ (processFrame C₁ cfg m fr).frameIndex = m.frameIndex + 1 := by
  refine ⟨?_, processFrame_frameIndex C₁ cfg m fr⟩
  conv_lhs => rw [processFrame]
  conv_rhs => rw [processFrame]
  dsimp only
  rw [h₁, h₂, h₃]
  dsimp only
  simp only [Bool.false_and]
  exact advanceState_congr_pS cfg _ _ _ fr rfl rfl rfl rfl rfl rfl rfl rfl rfl rfl

theorem advanceState_voice_noTrigger (cfg : Config) (m : Machine σ) (f : Frame)
    (hs : m.inSpeech = false)
    (hlt : ¬ ((m.voiceRun + 1 : ℕ) : ℚ) ≥ cfg.minSpeechFrames) :
    advanceState cfg m true f
      = { m with ring := ringPush cfg m.ring f, voiceRun := m.voiceRun + 1,
                 silenceRun := 0, frameIndex := m.frameIndex + 1 } := by
  cases m
  dsimp only at hs hlt
  subst hs
  dsimp only [advanceState]
  rw [if_pos rfl]
  dsimp only [advanceVoiceStep]
  split_ifs <;> first | rfl | (simp_all; try linarith)

theorem advanceState_voice_trigger_events (cfg : Config) (m : Machine σ) (f : Frame)
    (hs : m.inSpeech = false)
    (hge : ((m.voiceRun + 1 : ℕ) : ℚ) ≥ cfg.minSpeechFrames) :
    (advanceState cfg m true f).events = m.events ++ [Event.speechStart] := by
  cases m
  dsimp only at hs hge
  subst hs
  dsimp only [advanceState]
  rw [if_pos rfl]
  dsimp only [advanceVoiceStep]
  split_ifs <;> first | rfl | (simp_all; try linarith)

theorem processFrame_constPos (cfg : Config) (h0 : cfg.probSmoothing = 0)
    (hg : cfg.energyGateMs2 = none) (m : Machine Unit) (hs : m.inSpeech = false)
    (f : Frame) :
    processFrame (constOracle (some ⟨cfg.positiveSpeechThreshold, true⟩)) cfg m f
      = advanceState cfg
          { m with
              lastSampleForPreEmph := (preEmphFrame cfg.preEmphasis m.lastSampleForPreEmph f).2,
              pSmoothed := cfg.positiveSpeechThreshold } true f := by
  unfold processFrame constOracle
  dsimp only
  rw [h0, hg]
  dsimp only
  rw [zero_mul, zero_add, sub_zero, one_mul]
  rw [hs]
  rw [if_neg (by simp)]
  rw [show (decide (cfg.positiveSpeechThreshold ≥ cfg.positiveSpeechThreshold)) = true by simp]
  simp only [Bool.true_and, Bool.and_true]

theorem runFrames_append (C : Classifier σ) (cfg : Config) (m : Machine σ)
    (l1 l2 : List Frame) :
    runFrames C cfg m (l1 ++ l2) = runFrames C cfg (runFrames C cfg m l1) l2 := by
  simp [runFrames, List.foldl_append]

theorem c4_aux (cfg : Config) (h0 : cfg.probSmoothing = 0)
    (hg : cfg.energyGateMs2 = none) :
    ∀ (fs : List Frame) (m : Machine Unit), m.inSpeech = false →
      ((m.voiceRun + fs.length : ℕ) : ℚ) < cfg.minSpeechFrames →
      (runFrames (constOracle (some ⟨cfg.positiveSpeechThreshold, true⟩)) cfg m fs).inSpeech
          = false ∧
        (runFrames (constOracle (some ⟨cfg.positiveSpeechThreshold, true⟩)) cfg m fs).voiceRun
          = m.voiceRun + fs.length ∧
        (runFrames (constOracle (some ⟨cfg.positiveSpeechThreshold, true⟩)) cfg m fs).events
          = m.events := by
  intro fs
  induction fs with
  | nil => intro m hs hlt; exact ⟨hs, by simp [runFrames], rfl⟩
  | cons f fs ih =>
    intro m hs hlt
    have hrun : runFrames (constOracle (some ⟨cfg.positiveSpeechThreshold, true⟩)) cfg m (f :: fs)
        = runFrames (constOracle (some ⟨cfg.positiveSpeechThreshold, true⟩)) cfg
            (processFrame (constOracle (some ⟨cfg.positiveSpeechThreshold, true⟩)) cfg m f) fs := rfl
    have hcast : ((m.voiceRun + 1 : ℕ) : ℚ) + (fs.length : ℚ) < cfg.minSpeechFrames := by
      simp only [List.length_cons] at hlt
      push_cast at hlt ⊢
      linarith
    have hlt1 : ¬ ((m.voiceRun + 1 : ℕ) : ℚ) ≥ cfg.minSpeechFrames := by
      intro hge
      have hfs : (0 : ℚ) ≤ (fs.length : ℚ) := by positivity
      linarith
    rw [hrun, processFrame_constPos cfg h0 hg m hs f]
    rw [advanceState_voice_noTrigger cfg
      ({ m with
          lastSampleForPreEmph := (preEmphFrame cfg.preEmphasis m.lastSampleForPreEmph f).2,
          pSmoothed := cfg.positiveSpeechThreshold }) f hs hlt1]
    obtain ⟨ha, hb, hc⟩ := ih
      ({ m with
          lastSampleForPreEmph := (preEmphFrame cfg.preEmphasis m.lastSampleForPreEmph f).2,
          pSmoothed := cfg.positiveSpeechThreshold,
          ring := ringPush cfg m.ring f, voiceRun := m.voiceRun + 1,
          silenceRun := 0, frameIndex := m.frameIndex + 1 })
      hs
      (by
        dsimp only
        push_cast
        push_cast at hcast
        linarith)
    refine ⟨ha, ?_, hc⟩
    rw [hb]
    dsimp only
    simp only [List.length_cons]
    omega

theorem c4_amended (cfg : Config) (h0 : cfg.probSmoothing = 0)
    (hg : cfg.energyGateMs2 = none) (n : ℕ) (hn : 1 ≤ n)
    (hmsf : cfg.minSpeechFrames = (n : ℚ)) (frames : List Frame)
    (hlen : frames.length = n) :
    (runFrames (constOracle (some ⟨cfg.positiveSpeechThreshold, true⟩)) cfg
        (initMachine ()) frames).events = [Event.speechStart] := by
  have hne : frames ≠ [] := by
    intro h
    rw [h] at hlen
    simp at hlen
    omega
  have hsplit : frames.dropLast ++ [frames.getLast hne] = frames :=
    List.dropLast_append_getLast hne
  rw [← hsplit, runFrames_append]
  obtain ⟨ha, hb, hc⟩ := c4_aux cfg h0 hg frames.dropLast (initMachine ()) rfl
    (by
      simp only [initMachine, List.length_dropLast, hlen, hmsf]
      have h1 : (0 + (n - 1) : ℕ) < n := by omega
      exact_mod_cast h1)
  set M := runFrames (constOracle (some ⟨cfg.positiveSpeechThreshold, true⟩)) cfg
    (initMachine ()) frames.dropLast with hM
  have hstep : runFrames (constOracle (some ⟨cfg.positiveSpeechThreshold, true⟩)) cfg M
      [frames.getLast hne]
      = processFrame (constOracle (some ⟨cfg.positiveSpeechThreshold, true⟩)) cfg M
          (frames.getLast hne) := rfl
  have hvr : ((M.voiceRun + 1 : ℕ) : ℚ) ≥ cfg.minSpeechFrames := by
    rw [hb]
    simp only [initMachine, List.length_dropLast, hlen, hmsf]
    have h1 : (0 + (n - 1) + 1 : ℕ) = n := by omega
    rw [h1]
  rw [hstep, processFrame_constPos cfg h0 hg M ha]
  rw [advanceState_voice_trigger_events cfg
    ({ M with
        lastSampleForPreEmph :=
          (preEmphFrame cfg.preEmphasis M.lastSampleForPreEmph (frames.getLast hne)).2,
        pSmoothed := cfg.positiveSpeechThreshold }) (frames.getLast hne) ha hvr]
  rw [hc]
  rfl

/-- C3 witness: concrete instantiation of the amended claim with the error
oracle and the zero-probability oracle at a machine with smoothed
probability 1. -/
theorem c3_witness :
    (∀ (s : Unit) (inp : List ℤ), ((constOracle none) s inp).2 = none)
      ∧ (∀ (s : Unit) (inp : List ℤ),
          ((constOracle (some ⟨0, false⟩)) s inp).2 = some ⟨0, false⟩)
      ∧ (∀ (s : Unit) (inp : List ℤ),
          ((constOracle none) s inp).1 = ((constOracle (some ⟨0, false⟩)) s inp).1)
      ∧ (processFrame (constOracle none) defaultConfig c3Machine zeroFrame
            = { processFrame (constOracle (some ⟨0, false⟩)) defaultConfig c3Machine zeroFrame with
                  pSmoothed := c3Machine.pSmoothed }
          ∧ (processFrame (constOracle none) defaultConfig c3Machine zeroFrame).frameIndex
              = c3Machine.frameIndex + 1) :=
  ⟨fun _ _ => rfl, fun _ _ => rfl, fun _ _ => rfl,
    c3_amended (constOracle none) (constOracle (some ⟨0, false⟩)) defaultConfig c3Machine
      zeroFrame (fun _ _ => rfl) (fun _ _ => rfl) (fun _ _ => rfl)⟩

/-- C4 witness: with probSmoothing 0 and the energy gate disabled, a
classifier stream at exactly positiveSpeechThreshold with flag 1 for
minSpeechFrames = 3 frames fires exactly one onSpeechStart. -/
theorem c4_witness :
    zeroSmoothingConfig.probSmoothing = 0
      ∧ zeroSmoothingConfig.energyGateMs2 = none
      ∧ (1 : ℕ) ≤ 3
      ∧ zeroSmoothingConfig.minSpeechFrames = ((3 : ℕ) : ℚ)
      ∧ (List.replicate 3 zeroFrame).length = 3
      ∧ (runFrames
            (constOracle (some ⟨zeroSmoothingConfig.positiveSpeechThreshold, true⟩))
            zeroSmoothingConfig (initMachine ()) (List.replicate 3 zeroFrame)).events
          = [Event.speechStart] :=
  ⟨zsc_sm, zsc_gate, by norm_num, by rw [zsc_msf]; norm_num, by simp,
    c4_amended zeroSmoothingConfig zsc_sm zsc_gate 3 (by norm_num)
      (by rw [zsc_msf]; norm_num) (List.replicate 3 zeroFrame) (by simp)⟩

/-- C8: at every segment finalization, exactly one terminal event is
appended: onVADMisfire exactly when Math.round(sampleCount/16000*1000) is
below minSpeechMs, and otherwise onSpeechEnd carrying the full accumulated
padded audio. Both finalization sites are covered: the silence path of
_advanceState (given the machine is in Speech and both the silence-run and
countdown conditions hold at this frame) and _finalizeWithFrame as used by
flush (given the countdown condition holds). -/
theorem c8_finalize_decision {σ : Type} (cfg : Config) (m : Machine σ) (f : Frame) :
    (m.inSpeech = true →
      ((m.silenceRun + 1 : ℕ) : ℚ) ≥ cfg.minSilenceFrames →
      (if m.postPadCountdown = 0 then cfg.postPadFrames else m.postPadCountdown) - 1 ≤ 0 →
      (advanceState cfg m false f).events
        = m.events
          ++ [if ((jsRound (((m.currentSegment ++ [f]).flatten.length : ℚ)
                    / (SAMPLE_RATE : ℚ) * 1000) : ℤ) : ℚ) < cfg.minSpeechMs
              then Event.misfire
              else Event.speechEnd (m.currentSegment ++ [f]).flatten])
    ∧ ((if m.postPadCountdown = 0 then cfg.postPadFrames else m.postPadCountdown) - 1 ≤ 0 →
      (finalizeWithFrame cfg m f true).events
        = m.events
          ++ [if ((jsRound (((m.currentSegment ++ [f]).flatten.length : ℚ)
                    / (SAMPLE_RATE : ℚ) * 1000) : ℤ) : ℚ) < cfg.minSpeechMs
              then Event.misfire
              else Event.speechEnd (m.currentSegment ++ [f]).flatten]) := by
  constructor
  · intro hs hsil hcd
    cases m
    dsimp only at hs hsil hcd
    subst hs
    dsimp only [advanceState, advanceSilenceStep, segFinalize]
    split_ifs <;> first | rfl | (simp_all; try linarith)
  · intro hcd
    cases m
    dsimp only at hcd
    dsimp only [finalizeWithFrame, segFinalize]
    split_ifs <;> first | rfl | (simp_all; try linarith)

/-- C8 witness: a concrete in-speech machine meeting both finalization
conditions under the default configuration; the 512-sample segment lasts
32 ms, below minSpeechMs 150, so onVADMisfire fires at both sites. -/
theorem c8_witness :
    c8Machine.inSpeech = true
      ∧ ((c8Machine.silenceRun + 1 : ℕ) : ℚ) ≥ defaultConfig.minSilenceFrames
      ∧ (if c8Machine.postPadCountdown = 0 then defaultConfig.postPadFrames
          else c8Machine.postPadCountdown) - 1 ≤ 0
      ∧ (advanceState defaultConfig c8Machine false zeroFrame).events = [Event.misfire]
      ∧ (finalizeWithFrame defaultConfig c8Machine zeroFrame true).events = [Event.misfire] :=
  ⟨rfl, by with_unfolding_all decide, by with_unfolding_all decide,
    ((c8_finalize_decision defaultConfig c8Machine zeroFrame).1 rfl
        (by with_unfolding_all decide) (by with_unfolding_all decide)).trans
      (by with_unfolding_all decide),
    ((c8_finalize_decision defaultConfig c8Machine zeroFrame).2
        (by with_unfolding_all decide)).trans
      (by with_unfolding_all decide)⟩

theorem preEmphFrame_foldl_snd (a : ℚ) :
    ∀ (f : Frame) (l : List ℤ) (p : Sample),
      (f.foldl (fun acc x => (acc.1 ++ [toInt16 (x - a * acc.2)], x)) (l, p)).2
        = f.getLastD p := by
  intro f
  induction f with
  | nil => intro l p; rfl
  | cons x xs ih =>
    intro l p
    rw [List.foldl_cons, ih, List.getLastD_cons]

theorem preEmphFrame_snd (a : ℚ) (p : Sample) (f : Frame) :
    (preEmphFrame a p f).2 = f.getLastD p := by
  unfold preEmphFrame
  split_ifs with h
  · exact preEmphFrame_foldl_snd a f [] p
  · rfl

theorem processFrame_scripted_preEmph (cfg : Config) (a : ℚ)
    (m : Machine (List (Option ClassResult))) (f : Frame) :
    processFrame scripted { cfg with preEmphasis := a } m f
      = processFrame scripted { cfg with preEmphasis := 0 } m f := by
  unfold processFrame scripted
  dsimp only
  rw [preEmphFrame_snd, preEmphFrame_snd]
  rfl

theorem ringPush_subset (cfg : Config) (ring : List Frame) (f : Frame) (g : Frame)
    (hg : g ∈ ringPush cfg ring f) : g ∈ ring ∨ g = f := by
  unfold ringPush at hg
  split_ifs at hg with h1 h2
  · rcases List.mem_append.mp hg with h | h
    · exact Or.inl (List.mem_of_mem_drop h)
    · exact Or.inr (List.mem_singleton.mp h)
  · rcases List.mem_append.mp hg with h | h
    · exact Or.inl h
    · exact Or.inr (List.mem_singleton.mp h)
  · exact Or.inl hg

theorem segFinalize_speechEnd_src (cfg : Config) (segFrames : List Frame)
    (seg : List Sample) (he : segFinalize cfg segFrames = Event.speechEnd seg) :
    seg = segFrames.flatten := by
  unfold segFinalize at he
  dsimp only at he
  split_ifs at he
  injection he with h'
  exact h'.symm

theorem suffix_append_pair {α : Type} {s t : List α} (h : s <:+ t) (u : List α) :
    s ++ u <:+ t ++ u := by
  obtain ⟨p, hp⟩ := h
  exact ⟨p, by rw [← hp, List.append_assoc]⟩

theorem isInfix_extend {α : Type} {w fed : List α} (h : w <:+: fed) (u : List α) :
    w <:+: fed ++ u := by
  obtain ⟨s, t, hst⟩ := h
  exact ⟨s, t ++ u, by rw [← hst]; simp⟩

theorem PayloadOrd_mono {fed : List Frame} {seg : List Sample}
    (h : PayloadOrd fed seg) (u : List Frame) : PayloadOrd (fed ++ u) seg := by
  obtain ⟨w₁, w₂, k, hs, h₁, h₂⟩ := h
  exact ⟨w₁, w₂, k, hs, isInfix_extend h₁ u, isInfix_extend h₂ u⟩

theorem ringPush_ord (cfg : Config) (fed : List Frame) (ring : List Frame) (f : Frame)
    (hrs : ring <:+ fed) (hr0 : ¬ 0 < cfg.ringMax → ring = []) :
    ringPush cfg ring f <:+ fed ++ [f]
      ∧ (¬ 0 < cfg.ringMax → ringPush cfg ring f = []) := by
  unfold ringPush
  split_ifs with h1 h2
  · exact ⟨suffix_append_pair ((List.drop_suffix 1 ring).trans hrs) [f],
      fun h => absurd h1 h⟩
  · exact ⟨suffix_append_pair hrs [f], fun h => absurd h1 h⟩
  · rw [hr0 h1]
    exact ⟨List.nil_suffix, fun _ => rfl⟩

theorem advanceState_SegOrd (cfg : Config) (fed : List Frame) (m : Machine σ) (b : Bool)
    (f : Frame) (hm : SegOrd cfg fed m) :
    SegOrd cfg (fed ++ [f]) (advanceState cfg m b f) := by
  obtain ⟨⟨hrs, hr0⟩, hempty, hshape, hev⟩ := hm
  obtain ⟨hrs', hr0'⟩ := ringPush_ord cfg fed m.ring f hrs hr0
  unfold advanceState advanceVoiceStep advanceSilenceStep
  dsimp only
  split_ifs <;> (unfold SegOrd; dsimp only)
  any_goals (rename_i habs; exact absurd rfl habs)
  -- seed with ring content (ringMax positive)
  · rename_i hb hseed hrm hpos
    have hseg0 := hempty hseed.1
    refine ⟨⟨hrs', hr0'⟩, ?_, ?_, ?_⟩
    · intro h; exact nomatch h
    · intro h
      exact ⟨ringPush cfg m.ring f, [f], by rw [hseg0]; simp,
        hrs'.isInfix, ⟨fed, rfl⟩⟩
    · intro seg hmem
      rcases List.mem_append.mp hmem with hmem | hmem
      · exact PayloadOrd_mono (hev seg hmem) [f]
      · simp at hmem
  -- seed with the ring disabled
  · rename_i hb hseed hrm hpos
    have hseg0 := hempty hseed.1
    refine ⟨⟨hrs', hr0'⟩, ?_, ?_, ?_⟩
    · intro h; exact nomatch h
    · intro h
      exact ⟨[], [f], by rw [hseg0]; simp, ⟨[], fed ++ [f], by simp⟩, ⟨fed, rfl⟩⟩
    · intro seg hmem
      rcases List.mem_append.mp hmem with hmem | hmem
      · exact PayloadOrd_mono (hev seg hmem) [f]
      · simp at hmem
  -- voice frame while already in speech
  · rename_i hb hnoseed hpos
    dsimp only at hpos
    obtain ⟨w₁, w₂, hsplit, h₁, h₂⟩ := hshape hpos
    refine ⟨⟨hrs', hr0'⟩, ?_, ?_, ?_⟩
    · intro h; exact nomatch hpos.symm.trans h
    · intro h
      exact ⟨w₁, w₂ ++ [f], by rw [hsplit]; simp,
        isInfix_extend h₁ [f], suffix_append_pair h₂ [f]⟩
    · intro seg hmem
      exact PayloadOrd_mono (hev seg hmem) [f]
  -- voice frame outside speech, below the trigger
  · rename_i hb hnoseed hns
    dsimp only at hns
    refine ⟨⟨hrs', hr0'⟩, hempty, ?_, ?_⟩
    · intro h; exact absurd h hns
    · intro seg hmem
      exact PayloadOrd_mono (hev seg hmem) [f]
  -- silence finalize, countdown freshly armed
  · rename_i hb hsp hcd hfin
    refine ⟨⟨hrs', hr0'⟩, ?_, ?_, ?_⟩
    · intro h; exact rfl
    · intro h; exact nomatch h
    · intro seg hmem
      rcases List.mem_append.mp hmem with hmem | hmem
      · exact PayloadOrd_mono (hev seg hmem) [f]
      · have he := List.mem_singleton.mp hmem
        have hs := segFinalize_speechEnd_src cfg (m.currentSegment ++ [f]) seg he.symm
        obtain ⟨w₁, w₂, hsplit, h₁, h₂⟩ := hshape hsp
        exact ⟨w₁, w₂ ++ [f], 0, by rw [hs, hsplit]; simp,
          isInfix_extend h₁ [f], (suffix_append_pair h₂ [f]).isInfix⟩
  -- silence inside speech without finalizing, countdown freshly armed
  · rename_i hb hsp hcd hnfin
    obtain ⟨w₁, w₂, hsplit, h₁, h₂⟩ := hshape hsp
    refine ⟨⟨hrs', hr0'⟩, ?_, ?_, ?_⟩
    · intro h; exact nomatch hsp.symm.trans h
    · intro h
      exact ⟨w₁, w₂ ++ [f], by rw [hsplit]; simp,
        isInfix_extend h₁ [f], suffix_append_pair h₂ [f]⟩
    · intro seg hmem
      exact PayloadOrd_mono (hev seg hmem) [f]
  -- silence finalize, countdown already running
  · rename_i hb hsp hcd hfin
    refine ⟨⟨hrs', hr0'⟩, ?_, ?_, ?_⟩
    · intro h; exact rfl
    · intro h; exact nomatch h
    · intro seg hmem
      rcases List.mem_append.mp hmem with hmem | hmem
      · exact PayloadOrd_mono (hev seg hmem) [f]
      · have he := List.mem_singleton.mp hmem
        have hs := segFinalize_speechEnd_src cfg (m.currentSegment ++ [f]) seg he.symm
        obtain ⟨w₁, w₂, hsplit, h₁, h₂⟩ := hshape hsp
        exact ⟨w₁, w₂ ++ [f], 0, by rw [hs, hsplit]; simp,
          isInfix_extend h₁ [f], (suffix_append_pair h₂ [f]).isInfix⟩
  -- silence inside speech without finalizing, countdown already running
  · rename_i hb hsp hcd hnfin
    obtain ⟨w₁, w₂, hsplit, h₁, h₂⟩ := hshape hsp
    refine ⟨⟨hrs', hr0'⟩, ?_, ?_, ?_⟩
    · intro h; exact nomatch hsp.symm.trans h
    · intro h
      exact ⟨w₁, w₂ ++ [f], by rw [hsplit]; simp,
        isInfix_extend h₁ [f], suffix_append_pair h₂ [f]⟩
    · intro seg hmem
      exact PayloadOrd_mono (hev seg hmem) [f]
  -- silence outside speech
  · rename_i hns
    try dsimp only at hns
    refine ⟨⟨hrs', hr0'⟩, hempty, ?_, ?_⟩
    · intro h; exact absurd h hns
    · intro seg hmem
      exact PayloadOrd_mono (hev seg hmem) [f]

theorem processFrame_SegOrd (C : Classifier σ) (cfg : Config) (fed : List Frame)
    (m : Machine σ) (f : Frame) (hm : SegOrd cfg fed m) :
    SegOrd cfg (fed ++ [f]) (processFrame C cfg m f) := by
  unfold processFrame
  dsimp only
  rcases (C m.cstate (preEmphFrame cfg.preEmphasis m.lastSampleForPreEmph f).1).2 with _ | r
  · dsimp only
    exact advanceState_SegOrd cfg fed _ false f hm
  · dsimp only
    exact advanceState_SegOrd cfg fed _ _ f hm

theorem runFrames_SegOrd (C : Classifier σ) (cfg : Config) :
    ∀ (fs : List Frame) (fed : List Frame) (m : Machine σ), SegOrd cfg fed m →
      SegOrd cfg (fed ++ fs) (runFrames C cfg m fs) := by
  intro fs
  induction fs with
  | nil =>
    intro fed m hm
    rw [List.append_nil]
    exact hm
  | cons f fs ih =>
    intro fed m hm
    have h2 := ih (fed ++ [f]) (processFrame C cfg m f)
      (processFrame_SegOrd C cfg fed m f hm)
    rw [List.append_assoc] at h2
    exact h2


theorem finalizeWithFrame_silent_ord (cfg : Config) (m : Machine σ) (fed : List Frame)
    (hshape : ∃ w₁ w₂ k, m.currentSegment = w₁ ++ w₂ ++ List.replicate k silentFrame
        ∧ w₁ <:+: fed ∧ w₂ <:+: fed)
    (hev : ∀ seg, Event.speechEnd seg ∈ m.events → PayloadOrd fed seg) :
    (∃ w₁ w₂ k, (finalizeWithFrame cfg m silentFrame true).currentSegment
        = w₁ ++ w₂ ++ List.replicate k silentFrame ∧ w₁ <:+: fed ∧ w₂ <:+: fed)
      ∧ ∀ seg, Event.speechEnd seg ∈ (finalizeWithFrame cfg m silentFrame true).events →
          PayloadOrd fed seg := by
  obtain ⟨w₁, w₂, k, hcs, h₁, h₂⟩ := hshape
  unfold finalizeWithFrame
  dsimp only
  rw [if_pos rfl]
  split_ifs <;> dsimp only <;>
    solve
      | (constructor
         · exact ⟨[], [], 0, by simp, ⟨[], fed, by simp⟩, ⟨[], fed, by simp⟩⟩
         · intro seg hmem
           rcases List.mem_append.mp hmem with hmem | hmem
           · exact hev seg hmem
           · have he := List.mem_singleton.mp hmem
             have hs := segFinalize_speechEnd_src cfg (m.currentSegment ++ [silentFrame])
               seg he.symm
             refine ⟨w₁, w₂, k + 1, ?_, h₁, h₂⟩
             rw [hs, hcs]
             simp only [List.append_assoc, List.replicate_succ'])
      | (constructor
         · refine ⟨w₁, w₂, k + 1, ?_, h₁, h₂⟩
           rw [hcs]
           simp only [List.append_assoc, List.replicate_succ']
         · intro seg hmem
           exact hev seg hmem)

theorem flushLoopAux_PayloadOrd (cfg : Config) (fed : List Frame) :
    ∀ (fuel : ℕ) (m : Machine σ),
      (∃ w₁ w₂ k, m.currentSegment = w₁ ++ w₂ ++ List.replicate k silentFrame
          ∧ w₁ <:+: fed ∧ w₂ <:+: fed) →
      (∀ seg, Event.speechEnd seg ∈ m.events → PayloadOrd fed seg) →
      ∀ seg, Event.speechEnd seg ∈ (flushLoopAux cfg fuel m).events →
        PayloadOrd fed seg := by
  intro fuel
  induction fuel with
  | zero => intro m _ hev seg hmem; exact hev seg hmem
  | succ g ih =>
    intro m hshape hev seg
    by_cases hc : 0 < m.postPadCountdown
    · simp only [flushLoopAux, if_pos hc]
      obtain ⟨hshape2, hev2⟩ := finalizeWithFrame_silent_ord cfg m fed hshape hev
      exact ih _ hshape2 hev2 seg
    · simp only [flushLoopAux, if_neg hc]
      exact hev seg

theorem flushTail_PayloadOrd (cfg : Config) (fed : List Frame) (m : Machine σ)
    (hm : SegOrd cfg fed m) (seg : List Sample)
    (hmem : Event.speechEnd seg
        ∈ (if m.inSpeech = true
           then (flushLoop cfg { m with postPadCountdown := cfg.postPadFrames }).events
           else m.events)) :
    PayloadOrd fed seg := by
  obtain ⟨hring, hempty, hshape, hev⟩ := hm
  by_cases hsp : m.inSpeech = true
  · rw [if_pos hsp] at hmem
    unfold flushLoop at hmem
    obtain ⟨w₁, w₂, hsplit, h₁, h₂⟩ := hshape hsp
    refine flushLoopAux_PayloadOrd cfg fed _ _ ?_ ?_ seg hmem
    · exact ⟨w₁, w₂, 0, by dsimp only; rw [hsplit]; simp, h₁, h₂.isInfix⟩
    · intro sg hsg
      exact hev sg hsg
  · rw [if_neg hsp] at hmem
    exact hev seg hmem

theorem framesOfAux_short (fuel : ℕ) (buf : List Sample) (h : buf.length < HOP_SIZE) :
    framesOfAux fuel buf = [] := by
  have hn : ¬ HOP_SIZE ≤ buf.length := by omega
  cases fuel with
  | zero => rfl
  | succ g => simp only [framesOfAux, if_neg hn]

theorem drainFramesAux_split (C : Classifier σ) (cfg : Config) :
    ∀ (fuel : ℕ) (m : Machine σ) (buf : List Sample),
      drainFramesAux C cfg fuel m buf
        = (runFrames C cfg m (framesOfAux fuel buf), leftoverOfAux fuel buf) := by
  intro fuel
  induction fuel with
  | zero => intro m buf; rfl
  | succ g ih =>
    intro m buf
    by_cases hl : HOP_SIZE ≤ buf.length
    · simp only [drainFramesAux, framesOfAux, leftoverOfAux, if_pos hl, ih]
      rfl
    · simp only [drainFramesAux, framesOfAux, leftoverOfAux, if_neg hl]
      rfl

theorem leftoverOfAux_suffix : ∀ (fuel : ℕ) (buf : List Sample),
    leftoverOfAux fuel buf <:+ buf := by
  intro fuel
  induction fuel with
  | zero => intro buf; exact List.suffix_refl buf
  | succ g ih =>
    intro buf
    by_cases hl : HOP_SIZE ≤ buf.length
    · simp only [leftoverOfAux, if_pos hl]
      exact (ih (buf.drop HOP_SIZE)).trans (List.drop_suffix HOP_SIZE buf)
    · simp only [leftoverOfAux, if_neg hl]
      exact List.suffix_refl buf

theorem leftoverOfAux_length : ∀ (fuel : ℕ) (buf : List Sample), buf.length ≤ fuel →
    (leftoverOfAux fuel buf).length < HOP_SIZE := by
  intro fuel
  induction fuel with
  | zero =>
    intro buf h
    have hh : HOP_SIZE = 256 := rfl
    simp only [leftoverOfAux]
    omega
  | succ g ih =>
    intro buf h
    by_cases hl : HOP_SIZE ≤ buf.length
    · simp only [leftoverOfAux, if_pos hl]
      refine ih _ ?_
      rw [List.length_drop]
      have hh : HOP_SIZE = 256 := rfl
      omega
    · simp only [leftoverOfAux, if_neg hl]
      omega

theorem framesOfAux_mem : ∀ (fuel : ℕ) (buf : List Sample) (g : Frame),
    g ∈ framesOfAux fuel buf → g <:+: buf := by
  intro fuel
  induction fuel with
  | zero => intro buf g hg; exact absurd hg (List.not_mem_nil g)
  | succ t ih =>
    intro buf g hg
    by_cases hl : HOP_SIZE ≤ buf.length
    · simp only [framesOfAux, if_pos hl] at hg
      rcases List.mem_cons.mp hg with h | h
      · subst h
        exact ⟨[], buf.drop HOP_SIZE, by simp⟩
      · exact (ih _ g h).trans ⟨buf.take HOP_SIZE, [], by simp⟩
    · simp only [framesOfAux, if_neg hl] at hg
      exact absurd hg (List.not_mem_nil g)

theorem framesOf_single (l : List Sample) (h1 : HOP_SIZE ≤ l.length)
    (h2 : l.length < 2 * HOP_SIZE) : framesOf l = [l.take HOP_SIZE] := by
  unfold framesOf
  obtain ⟨n, hn⟩ : ∃ n, l.length = n + 1 := by
    have hh : HOP_SIZE = 256 := rfl
    exact ⟨l.length - 1, by omega⟩
  rw [hn]
  simp only [framesOfAux]
  rw [if_pos h1, framesOfAux_short n (l.drop HOP_SIZE)
    (by rw [List.length_drop]; have hh : HOP_SIZE = 256 := rfl; omega)]

theorem padFrame_length (buf : List Sample) (h : buf.length ≤ HOP_SIZE) :
    (padFrame buf).length = HOP_SIZE := by
  unfold padFrame
  rw [List.length_append, List.length_replicate]
  omega

theorem flush_PayloadOrd (C : Classifier σ) (cfg : Config) (s : VadState σ)
    (fed : List Frame) (hm : SegOrd cfg fed s.m) (hlen : s.floatBuf.length < HOP_SIZE) :
    ∀ seg, Event.speechEnd seg ∈ (flush C cfg s).m.events →
      PayloadOrd (fed ++ flushFedExt s.floatBuf) seg := by
  intro seg hmem
  by_cases hb : 0 < s.floatBuf.length
  · have hne : s.floatBuf ≠ [] := by
      intro h
      rw [h] at hb
      exact absurd hb (by simp)
    have hext : flushFedExt s.floatBuf
        = [(s.floatBuf ++ padFrame s.floatBuf).take HOP_SIZE] := by
      unfold flushFedExt
      rw [if_neg hne]
    have hclen : (s.floatBuf ++ padFrame s.floatBuf).length
        = s.floatBuf.length + HOP_SIZE := by
      rw [List.length_append, padFrame_length s.floatBuf (by omega)]
    have hfr : framesOf (s.floatBuf ++ padFrame s.floatBuf)
        = [(s.floatBuf ++ padFrame s.floatBuf).take HOP_SIZE] := by
      refine framesOf_single _ ?_ ?_ <;> rw [hclen] <;>
        (have hh : HOP_SIZE = 256 := rfl; omega)
    have hm1 : (processAudio C cfg s (padFrame s.floatBuf)).m
        = runFrames C cfg s.m (framesOf (s.floatBuf ++ padFrame s.floatBuf)) := by
      unfold processAudio drainFrames framesOf
      rw [drainFramesAux_split]
    have hord : SegOrd cfg (fed ++ flushFedExt s.floatBuf)
        (processAudio C cfg s (padFrame s.floatBuf)).m := by
      rw [hm1, hfr, hext]
      exact runFrames_SegOrd C cfg _ fed s.m hm
    unfold flush at hmem
    rw [if_pos hb] at hmem
    dsimp only at hmem
    rw [apply_ite VadState.m] at hmem
    dsimp only at hmem
    rw [apply_ite Machine.events] at hmem
    exact flushTail_PayloadOrd cfg _ _ hord seg hmem
  · have hnil : s.floatBuf = [] := List.eq_nil_of_length_eq_zero (by omega)
    have hext : flushFedExt s.floatBuf = [] := by
      unfold flushFedExt
      rw [if_pos hnil]
    rw [hext, List.append_nil]
    unfold flush at hmem
    rw [if_neg hb] at hmem
    dsimp only at hmem
    rw [apply_ite VadState.m] at hmem
    dsimp only at hmem
    rw [apply_ite Machine.events] at hmem
    exact flushTail_PayloadOrd cfg fed s.m hm seg hmem


theorem finalizeWithFrame_preEmph (cfg : Config) (a : ℚ) (m : Machine σ)
    (t : Frame) (b : Bool) :
    finalizeWithFrame { cfg with preEmphasis := a } m t b
      = finalizeWithFrame { cfg with preEmphasis := 0 } m t b := rfl

theorem flushLoopAux_preEmph (cfg : Config) (a : ℚ) :
    ∀ (fuel : ℕ) (m : Machine σ),
      flushLoopAux { cfg with preEmphasis := a } fuel m
        = flushLoopAux { cfg with preEmphasis := 0 } fuel m := by
  intro fuel
  induction fuel with
  | zero => intro m; rfl
  | succ g ih =>
    intro m
    by_cases hc : 0 < m.postPadCountdown
    · simp only [flushLoopAux, if_pos hc, finalizeWithFrame_preEmph, ih]
    · simp only [flushLoopAux, if_neg hc]

theorem flushLoop_preEmph (cfg : Config) (a : ℚ) (m : Machine σ) :
    flushLoop { cfg with preEmphasis := a } m
      = flushLoop { cfg with preEmphasis := 0 } m := by
  unfold flushLoop
  rw [flushLoopAux_preEmph]

theorem drainFramesAux_scripted_preEmph (cfg : Config) (a : ℚ) :
    ∀ (fuel : ℕ) (m : Machine (List (Option ClassResult))) (buf : List Sample),
      drainFramesAux scripted { cfg with preEmphasis := a } fuel m buf
        = drainFramesAux scripted { cfg with preEmphasis := 0 } fuel m buf := by
  intro fuel
  induction fuel with
  | zero => intro m buf; rfl
  | succ g ih =>
    intro m buf
    by_cases hl : HOP_SIZE ≤ buf.length
    · simp only [drainFramesAux, if_pos hl, processFrame_scripted_preEmph, ih]
    · simp only [drainFramesAux, if_neg hl]

theorem processAudio_scripted_preEmph (cfg : Config) (a : ℚ)
    (s : VadState (List (Option ClassResult))) (chunk : List Sample) :
    processAudio scripted { cfg with preEmphasis := a } s chunk
      = processAudio scripted { cfg with preEmphasis := 0 } s chunk := by
  unfold processAudio drainFrames
  rw [drainFramesAux_scripted_preEmph]

theorem chunksFold_scripted_preEmph (cfg : Config) (a : ℚ) :
    ∀ (chunks : List (List Sample)) (s : VadState (List (Option ClassResult))),
      chunks.foldl (processAudio scripted { cfg with preEmphasis := a }) s
        = chunks.foldl (processAudio scripted { cfg with preEmphasis := 0 }) s := by
  intro chunks
  induction chunks with
  | nil => intro s; rfl
  | cons c rest ih =>
    intro s
    show rest.foldl (processAudio scripted { cfg with preEmphasis := a })
        (processAudio scripted { cfg with preEmphasis := a } s c) = _
    rw [processAudio_scripted_preEmph, ih]
    rfl

theorem flush_scripted_preEmph (cfg : Config) (a : ℚ)
    (s : VadState (List (Option ClassResult))) :
    flush scripted { cfg with preEmphasis := a } s
      = flush scripted { cfg with preEmphasis := 0 } s := by
  unfold flush
  simp only [processAudio_scripted_preEmph, flushLoop_preEmph]

theorem processAudio_append (C : Classifier σ) (cfg : Config) (s : VadState σ)
    (a b : List Sample) :
    processAudio C cfg (processAudio C cfg s a) b = processAudio C cfg s (a ++ b) := by
  unfold processAudio
  dsimp only
  rw [← List.append_assoc]
  rw [drainFrames_append C cfg (s.floatBuf ++ a).length (s.floatBuf ++ a) le_rfl s.m b]

theorem foldl_processAudio_cons (C : Classifier σ) (cfg : Config) :
    ∀ (chunks : List (List Sample)) (s : VadState σ) (c : List Sample),
      (c :: chunks).foldl (processAudio C cfg) s
        = processAudio C cfg s (c :: chunks).flatten := by
  intro chunks
  induction chunks with
  | nil =>
    intro s c
    show processAudio C cfg s c = processAudio C cfg s (c ++ [].flatten)
    rw [List.flatten_nil, List.append_nil]
  | cons d ds ih =>
    intro s c
    show (d :: ds).foldl (processAudio C cfg) (processAudio C cfg s c) = _
    rw [ih (processAudio C cfg s c) d, processAudio_append]
    rfl

theorem foldl_processAudio_flatten_init (C : Classifier σ) (cfg : Config) (cs : σ) :
    ∀ (chunks : List (List Sample)),
      chunks.foldl (processAudio C cfg) (initVad cs)
        = processAudio C cfg (initVad cs) chunks.flatten := by
  intro chunks
  cases chunks with
  | nil => rfl
  | cons c cs2 => exact foldl_processAudio_cons C cfg cs2 (initVad cs) c

theorem processAudio_init_split (C : Classifier σ) (cfg : Config) (cs : σ)
    (stream : List Sample) :
    processAudio C cfg (initVad cs) stream
      = ⟨runFrames C cfg (initMachine cs) (framesOf stream), leftoverOf stream⟩ := by
  unfold processAudio drainFrames initVad framesOf leftoverOf
  dsimp only
  rw [List.nil_append, drainFramesAux_split]

theorem initMachine_SegOrd (cfg : Config) (cs : σ) : SegOrd cfg [] (initMachine cs) := by
  refine ⟨⟨?_, ?_⟩, ?_, ?_, ?_⟩
  · exact List.suffix_refl []
  · intro h
    rfl
  · intro h
    rfl
  · intro h
    exact nomatch h
  · intro seg hmem
    exact absurd hmem (List.not_mem_nil _)

theorem pipeFed_raw (stream : List Sample) :
    ∀ g ∈ pipeFed stream, ∃ b₁ b₂ j, g = b₁ ++ b₂ ++ List.replicate j (0 : Sample)
      ∧ b₁ <:+: stream ∧ b₂ <:+: stream := by
  intro g hg
  unfold pipeFed at hg
  rcases List.mem_append.mp hg with hg | hg
  · exact ⟨g, [], 0, by simp, framesOfAux_mem _ _ g hg, ⟨[], stream, by simp⟩⟩
  · unfold flushFedExt at hg
    split_ifs at hg with hnil
    · exact absurd hg (List.not_mem_nil g)
    · have hgl := List.mem_singleton.mp hg
      subst hgl
      have hsuf : leftoverOf stream <:+ stream := leftoverOfAux_suffix stream.length stream
      have hlen : (leftoverOf stream).length < HOP_SIZE :=
        leftoverOfAux_length stream.length stream le_rfl
      have h1 : (leftoverOf stream ++ padFrame (leftoverOf stream)).take HOP_SIZE
          = leftoverOf stream
            ++ (padFrame (leftoverOf stream)).take (HOP_SIZE - (leftoverOf stream).length) := by
        rw [List.take_append_eq_append_take, List.take_of_length_le (le_of_lt hlen)]
      have h2 : (padFrame (leftoverOf stream)).take (HOP_SIZE - (leftoverOf stream).length)
          = (leftoverOf stream).take (HOP_SIZE - (leftoverOf stream).length)
            ++ List.replicate
              (min (HOP_SIZE - (leftoverOf stream).length - (leftoverOf stream).length)
                (HOP_SIZE - (leftoverOf stream).length)) (0 : Sample) := by
        unfold padFrame
        rw [List.take_append_eq_append_take, List.take_replicate]
      refine ⟨leftoverOf stream,
        (leftoverOf stream).take (HOP_SIZE - (leftoverOf stream).length),
        min (HOP_SIZE - (leftoverOf stream).length - (leftoverOf stream).length)
          (HOP_SIZE - (leftoverOf stream).length),
        ?_, hsuf.isInfix, ?_⟩
      · rw [h1, h2]
        simp [List.append_assoc]
      · refine List.IsInfix.trans ?_ hsuf.isInfix
        exact ⟨[], (leftoverOf stream).drop (HOP_SIZE - (leftoverOf stream).length), by simp⟩

/-- C9: with the classifier held to its scripted responses (a deterministic
test double, so the cross-coefficient comparison is well defined), the
pre-emphasis coefficient is observationally irrelevant over the whole
pipeline: for any chunking, the entire final state after pushing the chunks
and flushing - machine, event log with all emitted payloads, and buffered
remainder - is identical to the run with coefficient 0. Every onSpeechEnd
payload, whether the segment was closed by the silence path or by flush, is
the concatenation, in order, of two contiguous runs of the fed frames (the
pre-pad ring seed, then the run from the trigger frame to the close, which
re-covers the trigger frame) followed by the silent zero frames flush
appends while draining the post padding; and each fed frame is itself raw
audio in stream order: two contiguous blocks of the raw sample stream
followed only by the zero samples flush padding adds. Pre-emphasis only
ever affects the quantized data handed to the classifier. -/
theorem c9_preemphasis_raw_segments (cfg : Config) (a : ℚ)
    (rs : List (Option ClassResult)) (chunks : List (List Sample)) :
    (flush scripted { cfg with preEmphasis := a }
        (chunks.foldl (processAudio scripted { cfg with preEmphasis := a }) (initVad rs))
      = flush scripted { cfg with preEmphasis := 0 }
          (chunks.foldl (processAudio scripted { cfg with preEmphasis := 0 }) (initVad rs)))
    ∧ (∀ seg, Event.speechEnd seg
          ∈ (flush scripted { cfg with preEmphasis := a }
              (chunks.foldl (processAudio scripted { cfg with preEmphasis := a })
                (initVad rs))).m.events →
        PayloadOrd (pipeFed chunks.flatten) seg)
    ∧ ∀ g ∈ pipeFed chunks.flatten,
        ∃ b₁ b₂ j, g = b₁ ++ b₂ ++ List.replicate j (0 : Sample)
          ∧ b₁ <:+: chunks.flatten ∧ b₂ <:+: chunks.flatten := by
  refine ⟨?_, ?_, pipeFed_raw chunks.flatten⟩
  · rw [chunksFold_scripted_preEmph, flush_scripted_preEmph]
  · intro seg hmem
    rw [foldl_processAudio_flatten_init, processAudio_init_split] at hmem
    have hM : SegOrd { cfg with preEmphasis := a } (framesOf chunks.flatten)
        (runFrames scripted { cfg with preEmphasis := a } (initMachine rs)
          (framesOf chunks.flatten)) := by
      have h0 := runFrames_SegOrd scripted { cfg with preEmphasis := a }
        (framesOf chunks.flatten) [] (initMachine rs)
        (initMachine_SegOrd { cfg with preEmphasis := a } rs)
      rw [List.nil_append] at h0
      exact h0
    exact flush_PayloadOrd scripted { cfg with preEmphasis := a }
      ⟨runFrames scripted { cfg with preEmphasis := a } (initMachine rs)
        (framesOf chunks.flatten), leftoverOf chunks.flatten⟩
      (framesOf chunks.flatten) hM
      (leftoverOfAux_length chunks.flatten.length chunks.flatten le_rfl) seg hmem

theorem flatten_length_all (S : List Frame) (h : ∀ g ∈ S, g.length = HOP_SIZE) :
    S.flatten.length = HOP_SIZE * S.length := by
  induction S with
  | nil => simp
  | cons x xs ih =>
    simp only [List.flatten_cons, List.length_append, List.length_cons]
    rw [h x (by simp), ih (fun g hg => h g (by simp [hg]))]
    ring

theorem segFinalize_speechEnd_len (cfg : Config) (segFrames : List Frame)
    (h : ∀ g ∈ segFrames, g.length = HOP_SIZE)
    (seg : List Sample) (he : segFinalize cfg segFrames = Event.speechEnd seg)
    (hne : segFrames ≠ []) :
    ∃ k : ℕ, 0 < k ∧ seg.length = HOP_SIZE * k := by
  have hseg := segFinalize_speechEnd_src cfg segFrames seg he
  refine ⟨segFrames.length, List.length_pos.mpr hne, ?_⟩
  rw [hseg, flatten_length_all segFrames h]

theorem advanceState_FrameLen (cfg : Config) (m : Machine σ) (b : Bool) (f : Frame)
    (hm : FrameLenInv m) (hf : f.length = HOP_SIZE) :
    FrameLenInv (advanceState cfg m b f) := by
  obtain ⟨hring, hseg, hev⟩ := hm
  have hring' : ∀ g ∈ ringPush cfg m.ring f, g.length = HOP_SIZE := by
    intro g hg
    rcases ringPush_subset cfg m.ring f g hg with h | h
    · exact hring g h
    · exact h ▸ hf
  unfold advanceState advanceVoiceStep advanceSilenceStep
  dsimp only
  split_ifs <;> (unfold FrameLenInv; dsimp only; refine ⟨hring', ?_, ?_⟩) <;>
    first
      | (intro g hg
         have hnil : g ∉ ([] : List Frame) := List.not_mem_nil g
         have hg' : g ∈ m.currentSegment ∨ g ∈ ringPush cfg m.ring f ∨ g = f := by
           try simp only [List.mem_append, List.mem_singleton] at hg
           tauto
         rcases hg' with h | h | h
         · exact hseg g h
         · exact hring' g h
         · exact h ▸ hf)
      | (intro seg hmem
         exact hev seg hmem)
      | (intro seg hmem
         rcases List.mem_append.mp hmem with hmem | hmem
         · exact hev seg hmem
         · simp at hmem)
      | (intro seg hmem
         rcases List.mem_append.mp hmem with hmem | hmem
         · exact hev seg hmem
         · have he := List.mem_singleton.mp hmem
           refine segFinalize_speechEnd_len cfg (m.currentSegment ++ [f]) ?_ seg he.symm (by simp)
           intro g hg
           rcases List.mem_append.mp hg with hg | hg
           · exact hseg g hg
           · exact (List.mem_singleton.mp hg) ▸ hf)

theorem processFrame_FrameLen (C : Classifier σ) (cfg : Config) (m : Machine σ)
    (f : Frame) (hm : FrameLenInv m) (hf : f.length = HOP_SIZE) :
    FrameLenInv (processFrame C cfg m f) := by
  unfold processFrame
  dsimp only
  rcases (C m.cstate (preEmphFrame cfg.preEmphasis m.lastSampleForPreEmph f).1).2 with _ | r
  · dsimp only
    exact advanceState_FrameLen cfg _ false f hm hf
  · dsimp only
    exact advanceState_FrameLen cfg _ _ f hm hf

theorem drainFramesAux_FrameLen (C : Classifier σ) (cfg : Config) :
    ∀ (fuel : ℕ) (m : Machine σ) (buf : List Sample), FrameLenInv m →
      FrameLenInv (drainFramesAux C cfg fuel m buf).1 := by
  intro fuel
  induction fuel with
  | zero => intro m buf hm; exact hm
  | succ g ih =>
    intro m buf hm
    by_cases hl : HOP_SIZE ≤ buf.length
    · simp only [drainFramesAux, if_pos hl]
      refine ih _ _ (processFrame_FrameLen C cfg m _ hm ?_)
      rw [List.length_take]
      omega
    · simp only [drainFramesAux, if_neg hl]
      exact hm

theorem processAudio_FrameLen (C : Classifier σ) (cfg : Config) (s : VadState σ)
    (chunk : List Sample) (hm : FrameLenInv s.m) :
    FrameLenInv (processAudio C cfg s chunk).m := by
  unfold processAudio drainFrames
  dsimp only
  exact drainFramesAux_FrameLen C cfg _ s.m _ hm

theorem chunks_FrameLen (C : Classifier σ) (cfg : Config) :
    ∀ (chunks : List (List Sample)) (s : VadState σ), FrameLenInv s.m →
      FrameLenInv (chunks.foldl (processAudio C cfg) s).m := by
  intro chunks
  induction chunks with
  | nil => intro s hm; exact hm
  | cons cs rest ih =>
    intro s hm
    exact ih _ (processAudio_FrameLen C cfg s cs hm)

theorem finalizeWithFrame_FrameLen (cfg : Config) (m : Machine σ) (t : Frame) (b : Bool)
    (hm : FrameLenInv m) (ht : t.length = HOP_SIZE) :
    FrameLenInv (finalizeWithFrame cfg m t b) := by
  obtain ⟨hring, hseg, hev⟩ := hm
  unfold finalizeWithFrame
  dsimp only
  split_ifs <;> (unfold FrameLenInv; dsimp only; refine ⟨hring, ?_, ?_⟩) <;>
    first
      | (intro g hg
         have hnil : g ∉ ([] : List Frame) := List.not_mem_nil g
         have hg' : g ∈ m.currentSegment ∨ g = t := by
           try simp only [List.mem_append, List.mem_singleton] at hg
           tauto
         rcases hg' with h | h
         · exact hseg g h
         · exact h ▸ ht)
      | (intro seg hmem
         exact hev seg hmem)
      | (intro seg hmem
         rcases List.mem_append.mp hmem with hmem | hmem
         · exact hev seg hmem
         · have he := List.mem_singleton.mp hmem
           refine segFinalize_speechEnd_len cfg (m.currentSegment ++ [t]) ?_ seg he.symm (by simp)
           intro g hg
           rcases List.mem_append.mp hg with hg | hg
           · exact hseg g hg
           · exact (List.mem_singleton.mp hg) ▸ ht)

theorem flushLoopAux_FrameLen (cfg : Config) :
    ∀ (fuel : ℕ) (m : Machine σ), FrameLenInv m → FrameLenInv (flushLoopAux cfg fuel m) := by
  intro fuel
  induction fuel with
  | zero => intro m hm; exact hm
  | succ g ih =>
    intro m hm
    by_cases hc : 0 < m.postPadCountdown
    · simp only [flushLoopAux, if_pos hc]
      exact ih _ (finalizeWithFrame_FrameLen cfg m silentFrame true hm (by simp [silentFrame]))
    · simp only [flushLoopAux, if_neg hc]
      exact hm

theorem flush_FrameLen (C : Classifier σ) (cfg : Config) (s : VadState σ)
    (hm : FrameLenInv s.m) : FrameLenInv (flush C cfg s).m := by
  unfold flush
  dsimp only
  split_ifs <;>
    first
      | exact hm
      | (exact processAudio_FrameLen C cfg s _ hm)
      | (unfold flushLoop
         exact flushLoopAux_FrameLen cfg _ _ (processAudio_FrameLen C cfg s _ hm))
      | (unfold flushLoop
         exact flushLoopAux_FrameLen cfg _ _ hm)

/-- C10: over any chunking of the input and any configuration and
classifier, every Float32Array handed to onSpeechEnd - whether the segment
was closed by the silence path or by flush - has a length that is a positive
integer multiple of HOP_SIZE = 256. -/
theorem c10_segment_length_multiple {σ : Type} (C : Classifier σ) (cfg : Config)
    (cs : σ) (chunks : List (List Sample)) (seg : List Sample)
    (h : Event.speechEnd seg
        ∈ (flush C cfg (chunks.foldl (processAudio C cfg) (initVad cs))).m.events) :
    ∃ k : ℕ, 0 < k ∧ seg.length = HOP_SIZE * k := by
  have hinit : FrameLenInv ((initVad cs).m) := by
    refine ⟨?_, ?_, ?_⟩ <;> intro x hx <;> simp [initVad, initMachine] at hx
  exact (flush_FrameLen C cfg _ (chunks_FrameLen C cfg chunks _ hinit)).2.2 seg h

/-- C9 witness: a 512-sample chunk pushed and flushed with pre-emphasis
coefficient one half emits an onSpeechEnd whose payload, the 512 raw (zero)
input samples, has the ordered decomposition over the fed frames. -/
theorem c9_witness :
    Event.speechEnd (List.replicate 512 0)
        ∈ (flush scripted { cfg10 with preEmphasis := (1/2 : ℚ) }
            ([List.replicate 512 0].foldl
              (processAudio scripted { cfg10 with preEmphasis := (1/2 : ℚ) })
              (initVad c10Script))).m.events
      ∧ PayloadOrd (pipeFed ([List.replicate 512 (0 : ℚ)] : List (List Sample)).flatten)
          (List.replicate 512 0) :=
  ⟨by with_unfolding_all decide,
    (c9_preemphasis_raw_segments cfg10 (1/2) c10Script [List.replicate 512 0]).2.1
      (List.replicate 512 0) (by with_unfolding_all decide)⟩

/-- C10 witness: feeding one 512-sample chunk through processAudio and flush
produces an onSpeechEnd whose payload length is a positive multiple of 256. -/
theorem c10_witness :
    Event.speechEnd (List.replicate 512 0)
        ∈ (flush scripted cfg10
            ([List.replicate 512 0].foldl (processAudio scripted cfg10)
              (initVad c10Script))).m.events
      ∧ ∃ k : ℕ, 0 < k ∧ (List.replicate 512 (0 : ℚ)).length = HOP_SIZE * k :=
  ⟨by with_unfolding_all decide,
    c10_segment_length_multiple scripted cfg10 c10Script [List.replicate 512 0]
      (List.replicate 512 0) (by with_unfolding_all decide)⟩

end RealtimeTenVad
